import Mathlib

/-!
# A shallow embedding of the pyrobopath scheduling core

This file embeds, in Lean 4, the parts of the `pyrobopath` code base that the
specification's claims talk about:

* `pyrobopath.collision_detection.trajectory` — trajectory points, piecewise
  linear trajectories, time sampling (`get_point_at_time`), `slice`, and
  `from_const_vel_path`;
* `pyrobopath.collision_detection.trajectory_collision_detection` —
  `continuous_collide`, `trajectory_collision_query` (with the concurrent
  segment iterator) and the Δt derivation of `check_trajectory_collision`;
* `pyrobopath.scheduling.schedule` — Allen's interval relations on `Interval`;
* `pyrobopath.toolpath_scheduling.schedule` — `MoveEvent` / `ContourEvent` and
  `ToolpathSchedule.get_state`;
* `pyrobopath.collision_detection.fcl_collision_models` — the
  `FCLRobotBBCollisionModel.translation` setter;
* `pyrobopath.toolpath_scheduling.toolpath_scheduler` —
  `MultiAgentToolpathPlanner.plan` (entry and main loop), modelled with fuel.

Conventions of the embedding:

* 3-d numpy vectors become `V3 := ℚ × ℚ × ℚ`, and times / velocities become
  rationals, so that every definition is computable and every concrete
  instance can be settled with `decide`.
* `np.linalg.norm` (an external library call) is abstracted as an explicit
  function parameter `nrm : V3 → ℚ`; theorems that need properties of the
  norm state them as hypotheses (e.g. `nrm 0 = 0`).
* Python dictionaries become association lists in insertion order, Python
  `sorted` becomes a stable insertion sort, and `bisect_left` on a sorted
  list of keys becomes the count of strictly smaller keys.
* Python runtime failures (IndexError on an empty slice, use of the undefined
  attribute `event_causes_collision`) are modelled as explicit error values.
-/

/-- 3-d vectors with rational coordinates (embedding of 3-element numpy
arrays). Componentwise `+`/`-` and the scalar action come from the product
instances. -/
abbrev V3 : Type := ℚ × ℚ × ℚ

/-- The zero vector, used as an inert default where Python would have raised
an `IndexError`; every theorem below guards those positions with hypotheses. -/
def v3zero : V3 := (0, 0, 0)

/-- Embedding of `TrajectoryPoint` (`collision_detection/trajectory.py`):
a data vector together with a time stamp. -/
structure TrajectoryPoint where
  data : V3
  time : ℚ
deriving DecidableEq, Repr

/-- `TrajectoryPoint.interp`: linear interpolation from `self` toward `other`
at parameter `s`: `data = s*(other.data - self.data) + self.data`, and the
same formula for `time`. -/
def TrajectoryPoint.interp (p other : TrajectoryPoint) (s : ℚ) : TrajectoryPoint :=
  { data := s • (other.data - p.data) + p.data
    time := s * (other.time - p.time) + p.time }

/-- Placeholder point used for out-of-range indexing; unreachable under the
hypotheses of the theorems below. -/
def dummyPt : TrajectoryPoint := ⟨v3zero, 0⟩

/-- Embedding of `Trajectory`: a list of trajectory points (normally kept in
increasing time order). -/
structure Trajectory where
  points : List TrajectoryPoint
deriving DecidableEq, Repr

namespace Trajectory

/-- `Trajectory.start_time`: time of the first point, `0.0` when empty. -/
def startTime (T : Trajectory) : ℚ := (T.points.headD dummyPt).time

/-- `Trajectory.end_time`: time of the last point, `0.0` when empty. -/
def endTime (T : Trajectory) : ℚ := (T.points.getLastD dummyPt).time

/-- `Trajectory.elapsed`: `end_time - start_time`, `0.0` when empty. -/
def elapsed (T : Trajectory) : ℚ := if T.points = [] then 0 else T.endTime - T.startTime

/-- `Trajectory.distance`: sum of distances of consecutive points, with the
norm of `np.linalg` abstracted as `nrm` applied to the difference vector. -/
def distance (nrm : V3 → ℚ) (T : Trajectory) : ℚ :=
  (List.zipWith (fun s e => nrm (e.data - s.data)) T.points T.points.tail).sum

/-- `ans = bisect.bisect_left([p.time for p in points], time)`: on a list in
increasing time order, the insertion index equals the number of points with
strictly smaller time. -/
def bisectLeft (T : Trajectory) (t : ℚ) : ℕ :=
  T.points.countP (fun p => decide (p.time < t))

/-- `s = self.points[ans]` in `get_point_at_time`. -/
def gpatS (T : Trajectory) (t : ℚ) : TrajectoryPoint :=
  T.points.getD (T.bisectLeft t) dummyPt

/-- `e = self.points[ans - 1]` in `get_point_at_time`; Python's `-1` index
wraps around to the *last* point when `ans = 0`. -/
def gpatE (T : Trajectory) (t : ℚ) : TrajectoryPoint :=
  if T.bisectLeft t = 0 then T.points.getLastD dummyPt
  else T.points.getD (T.bisectLeft t - 1) dummyPt

/-- The in-domain branch of `get_point_at_time`: return `s` when `s == e`,
otherwise `s.interp(e, (time - s.time)/(e.time - s.time))`. -/
def gpatSeg (T : Trajectory) (t : ℚ) : Option TrajectoryPoint :=
  if T.gpatS t = T.gpatE t then some (T.gpatS t)
  else some ((T.gpatS t).interp (T.gpatE t)
    ((t - (T.gpatS t).time) / ((T.gpatE t).time - (T.gpatS t).time)))

/-- `Trajectory.get_point_at_time`: `None` for an empty trajectory or outside
`[start_time, end_time]`; inside, interpolate the bracketing pair found by
`bisect_left`. -/
def getPointAtTime (T : Trajectory) (t : ℚ) : Option TrajectoryPoint :=
  if T.points = [] then none
  else if t < T.startTime ∨ t > T.endTime then none
  else T.gpatSeg t

/-- `Trajectory.slice(start, end)`: the empty input is returned as is; a
window entirely outside the time span gives an empty trajectory; otherwise
the sample at `start` (when it exists) is followed, unless `start = end`, by
the points with time strictly inside the window and the sample at `end`
(when it exists). -/
def slice (T : Trajectory) (s e : ℚ) : Trajectory :=
  if T.points = [] then T
  else if s > T.endTime ∨ e < T.startTime then ⟨[]⟩
  else
    let startPt := (T.getPointAtTime s).toList
    if s = e then ⟨startPt⟩
    else
      ⟨startPt ++ T.points.filter (fun p => decide (s < p.time) && decide (p.time < e))
        ++ (T.getPointAtTime e).toList⟩

/-- `Trajectory.from_const_vel_path(path, velocity, start_time)`: walks the
path accumulating travelled distance, stamping point `i` with
`start_time + distance_so_far / velocity`. -/
def fromConstVelPath (nrm : V3 → ℚ) (path : List V3) (velocity t0 : ℚ) : Trajectory :=
  match path with
  | [] => ⟨[]⟩   -- Python raises on `path[0]`; callers pass non-empty paths
  | p0 :: rest => ⟨⟨p0, t0⟩ :: go p0 0 rest⟩
where
  /-- The loop over `path[1:]` with the running distance accumulator. -/
  go (prev : V3) (dAcc : ℚ) : List V3 → List TrajectoryPoint
  | [] => []
  | p :: ps =>
    let d := dAcc + nrm (p - prev)
    ⟨p, d / velocity + t0⟩ :: go p d ps

end Trajectory

/-- The consecutive-segment distances `‖path[i+1] - path[i]‖` of a path,
with the norm abstracted as `nrm`. -/
def segDists (nrm : V3 → ℚ) (path : List V3) : List ℚ :=
  List.zipWith (fun a b => nrm (b - a)) path path.tail

/-- `Contour.path_length` (`toolpath/toolpath_core.py`): the sum of the
distances between consecutive waypoints. -/
def pathLength (nrm : V3 → ℚ) (path : List V3) : ℚ := (segDists nrm path).sum

section FromConstVelPath

/-- Strict prefix sums starting from accumulator `b`: the running values of
the `distance_trav` accumulator of `from_const_vel_path`. -/
def prefixScan (b : ℚ) : List ℚ → List ℚ
  | [] => []
  | d :: ds => (b + d) :: prefixScan (b + d) ds

/-- `prefixScan` is the tail of `List.scanl (·+·)`. -/
theorem prefixScan_eq_scanl_tail (b : ℚ) (ds : List ℚ) :
    prefixScan b ds = (List.scanl (· + ·) b ds).tail := by
  induction ds generalizing b with
  | nil => rfl
  | cons d ds ih =>
    cases ds with
    | nil => rfl
    | cons d' ds' =>
      simp only [prefixScan, List.scanl, List.tail_cons] at *
      exact congrArg _ (ih (b + d))

/-- The times produced by the `from_const_vel_path` loop are the prefix sums
of the segment distances, shifted by the accumulator, scaled by `1/velocity`
and offset by `t0`. -/
theorem fromConstVelPath_go_times (nrm : V3 → ℚ) (v t0 : ℚ) (prev : V3) (dAcc : ℚ)
    (rest : List V3) :
    (Trajectory.fromConstVelPath.go nrm v t0 prev dAcc rest).map (fun p => p.time) =
      (prefixScan dAcc (segDists nrm (prev :: rest))).map (fun d => d / v + t0) := by
  induction rest generalizing prev dAcc with
  | nil => rfl
  | cons p ps ih =>
    simp only [Trajectory.fromConstVelPath.go, List.map_cons, segDists, List.tail_cons,
      List.zipWith, prefixScan, List.cons.injEq] at *
    exact ⟨trivial, ih p (dAcc + nrm (p - prev))⟩

/-- The data of the points produced by the loop is the remaining path. -/
theorem fromConstVelPath_go_data (nrm : V3 → ℚ) (v t0 : ℚ) (prev : V3) (dAcc : ℚ)
    (rest : List V3) :
    (Trajectory.fromConstVelPath.go nrm v t0 prev dAcc rest).map (fun p => p.data) = rest := by
  induction rest generalizing prev dAcc with
  | nil => rfl
  | cons p ps ih => simpa [Trajectory.fromConstVelPath.go] using ih p _

/-- Point data of `from_const_vel_path` is exactly the input path. -/
theorem fromConstVelPath_data (nrm : V3 → ℚ) (path : List V3) (v t0 : ℚ) :
    (Trajectory.fromConstVelPath nrm path v t0).points.map (fun p => p.data) = path := by
  cases path with
  | nil => rfl
  | cons p0 rest =>
    simpa [Trajectory.fromConstVelPath] using fromConstVelPath_go_data nrm v t0 p0 0 rest

/-- Point times of `from_const_vel_path` on a non-empty path are
`t0 + (prefix sum of segment distances) / v`. -/
theorem fromConstVelPath_times (nrm : V3 → ℚ) (path : List V3) (v t0 : ℚ)
    (hne : path ≠ []) :
    (Trajectory.fromConstVelPath nrm path v t0).points.map (fun p => p.time) =
      (List.scanl (· + ·) 0 (segDists nrm path)).map (fun d => d / v + t0) := by
  cases path with
  | nil => exact absurd rfl hne
  | cons p0 rest =>
    have h := fromConstVelPath_go_times nrm v t0 p0 0 rest
    have hscan : List.scanl (· + ·) 0 (segDists nrm (p0 :: rest)) =
        0 :: prefixScan 0 (segDists nrm (p0 :: rest)) := by
      rw [prefixScan_eq_scanl_tail]
      cases hd : segDists nrm (p0 :: rest) <;> simp [List.scanl]
    rw [hscan]
    simp only [Trajectory.fromConstVelPath, List.map_cons, h]
    norm_num

/-- The last point produced by the `from_const_vel_path` loop (for a
non-empty remainder) carries time `(dAcc + total remaining distance)/v + t0`,
whatever the `getLastD` default. -/
theorem fromConstVelPath_go_getLast (nrm : V3 → ℚ) (v t0 : ℚ) (prev : V3) (dAcc : ℚ)
    (rest : List V3) (hne : rest ≠ []) (dflt : TrajectoryPoint) :
    ((Trajectory.fromConstVelPath.go nrm v t0 prev dAcc rest).getLastD dflt).time =
      (dAcc + (segDists nrm (prev :: rest)).sum) / v + t0 := by
  induction rest generalizing prev dAcc dflt with
  | nil => exact absurd rfl hne
  | cons p ps ih =>
    cases ps with
    | nil => simp [Trajectory.fromConstVelPath.go, segDists]
    | cons q qs =>
      rw [show Trajectory.fromConstVelPath.go nrm v t0 prev dAcc (p :: q :: qs) =
          ⟨p, (dAcc + nrm (p - prev)) / v + t0⟩ ::
            Trajectory.fromConstVelPath.go nrm v t0 p (dAcc + nrm (p - prev)) (q :: qs)
          from rfl, List.getLastD_cons]
      rw [ih p (dAcc + nrm (p - prev)) (by simp) _]
      have : segDists nrm (prev :: p :: q :: qs) =
          nrm (p - prev) :: segDists nrm (p :: q :: qs) := rfl
      rw [this, List.sum_cons]
      ring_nf

/-- `end_time` of a constant-velocity trajectory over a non-empty path is
`t0 + path length / v`. -/
theorem fromConstVelPath_endTime (nrm : V3 → ℚ) (path : List V3) (v t0 : ℚ)
    (hne : path ≠ []) :
    (Trajectory.fromConstVelPath nrm path v t0).endTime = t0 + pathLength nrm path / v := by
  cases path with
  | nil => exact absurd rfl hne
  | cons p0 rest =>
    cases rest with
    | nil =>
      simp [Trajectory.fromConstVelPath, Trajectory.fromConstVelPath.go, Trajectory.endTime,
        pathLength, segDists]
    | cons q qs =>
      have hpts : (Trajectory.fromConstVelPath nrm (p0 :: q :: qs) v t0).points =
          ⟨p0, t0⟩ :: Trajectory.fromConstVelPath.go nrm v t0 p0 0 (q :: qs) := rfl
      rw [Trajectory.endTime, hpts, List.getLastD_cons,
        fromConstVelPath_go_getLast nrm v t0 p0 0 (q :: qs) (by simp)]
      rw [pathLength]
      ring

/-- `start_time` of a constant-velocity trajectory over a non-empty path is
`t0`. -/
theorem fromConstVelPath_startTime (nrm : V3 → ℚ) (path : List V3) (v t0 : ℚ)
    (hne : path ≠ []) :
    (Trajectory.fromConstVelPath nrm path v t0).startTime = t0 := by
  cases path with
  | nil => exact absurd rfl hne
  | cons p0 rest => rfl

/-- The point list of a constant-velocity trajectory over a non-empty path is
non-empty. -/
theorem fromConstVelPath_ne_nil (nrm : V3 → ℚ) (path : List V3) (v t0 : ℚ)
    (hne : path ≠ []) :
    (Trajectory.fromConstVelPath nrm path v t0).points ≠ [] := by
  cases path with
  | nil => exact absurd rfl hne
  | cons p0 rest => simp [Trajectory.fromConstVelPath]

end FromConstVelPath

/-- Embedding of `MoveEvent` (`toolpath_scheduling/schedule.py`): the stored
fields are the start time, the path (the event's `data`) and the velocity;
the trajectory and the end time are derived exactly as in the constructor
(`traj = Trajectory.from_const_vel_path(path, velocity, start)`,
`end = traj.end_time()`). -/
structure MoveEvent where
  start : ℚ
  path : List V3
  velocity : ℚ
deriving DecidableEq, Repr

/-- The trajectory stored by the `MoveEvent` constructor. -/
def MoveEvent.traj (nrm : V3 → ℚ) (e : MoveEvent) : Trajectory :=
  Trajectory.fromConstVelPath nrm e.path e.velocity e.start

/-- The `end` field of a `MoveEvent` (`end` is a Lean keyword, hence `stop`):
`self.traj.end_time()`. -/
def MoveEvent.stop (nrm : V3 → ℚ) (e : MoveEvent) : ℚ := (e.traj nrm).endTime

/-- Embedding of `Contour` (`toolpath/toolpath_core.py`): a waypoint path and
a tool id (tool ids are integers; the scheduler's internal travel contours
use `-1`). -/
structure Contour where
  path : List V3
  tool : ℤ
deriving DecidableEq, Repr

/-- `ContourEvent(start, contour, velocity)`: a `MoveEvent` over the
contour's path. -/
def ContourEvent (start : ℚ) (contour : Contour) (velocity : ℚ) : MoveEvent :=
  ⟨start, contour.path, velocity⟩

/-- C8. `Trajectory.from_const_vel_path(path, v, t0)` produces one point per
path point, with `point[i].data = path[i]` and
`point[i].time = t0 + (prefix sum of segment lengths)/v`; consequently the
trajectory's elapsed time is `path length / v`, and every `ContourEvent`
satisfies `end = start + contour.path_length()/v`. -/
theorem C8_const_vel_path (nrm : V3 → ℚ) (path : List V3) (v t0 : ℚ)
    (_hv : 0 < v) (hne : path ≠ []) :
    (Trajectory.fromConstVelPath nrm path v t0).points.map (fun p => p.data) = path ∧
    (Trajectory.fromConstVelPath nrm path v t0).points.map (fun p => p.time) =
      (List.scanl (· + ·) 0 (segDists nrm path)).map (fun d => t0 + d / v) ∧
    (Trajectory.fromConstVelPath nrm path v t0).elapsed = pathLength nrm path / v ∧
    (∀ (c : Contour) (s : ℚ), c.path = path →
      (ContourEvent s c v).stop nrm = s + pathLength nrm c.path / v) := by
  refine ⟨fromConstVelPath_data nrm path v t0, ?_, ?_, ?_⟩
  · rw [fromConstVelPath_times nrm path v t0 hne]
    exact List.map_congr_left (fun d _ => by ring)
  · rw [Trajectory.elapsed, if_neg (fromConstVelPath_ne_nil nrm path v t0 hne),
      fromConstVelPath_endTime nrm path v t0 hne,
      fromConstVelPath_startTime nrm path v t0 hne]
    ring
  · intro c s hc
    rw [MoveEvent.stop, MoveEvent.traj, ContourEvent]
    exact fromConstVelPath_endTime nrm c.path v s (hc ▸ hne)

/-- A sample concrete stand-in for `np.linalg.norm` used by witnesses: the
1-norm, which agrees with the Euclidean norm on axis-aligned differences. -/
def l1norm (w : V3) : ℚ := |w.1| + |w.2.1| + |w.2.2|

/-- Witness for C8 at a concrete input: the unit-velocity trajectory over
`[(0,0,0), (3,0,0), (3,4,0)]` with the 1-norm, started at `t0 = 2`. -/
theorem C8_const_vel_path_witness :
    (0 : ℚ) < 1 ∧ ([((0 : ℚ), (0 : ℚ), (0 : ℚ)), (3, 0, 0), (3, 4, 0)] : List V3) ≠ [] ∧
    (Trajectory.fromConstVelPath l1norm
      [((0 : ℚ), (0 : ℚ), (0 : ℚ)), (3, 0, 0), (3, 4, 0)] 1 2).points.map (fun p => p.time) =
      [2, 5, 9] := by
  refine ⟨by norm_num, by simp, ?_⟩
  have h := (C8_const_vel_path l1norm
    [((0 : ℚ), (0 : ℚ), (0 : ℚ)), (3, 0, 0), (3, 4, 0)] 1 2 (by norm_num) (by simp)).2.1
  rw [h]
  norm_num [segDists, List.scanl, l1norm]


/-! ## Allen's interval algebra (`scheduling/schedule.py`, class `Interval`) -/

namespace Sched

/-- Embedding of `Interval`: a closed time interval. The source field `end`
is a Lean keyword and is embedded as `stop`; the namespace avoids a clash
with Mathlib's `Interval`. -/
structure Interval where
  start : ℚ
  stop : ℚ
deriving DecidableEq, Repr

namespace Interval

/-- `Interval.precedes`: `self.end < other.start`. -/
abbrev precedes (a b : Interval) : Prop := a.stop < b.start

/-- `Interval.meets`: `self.end == other.start`. -/
abbrev meets (a b : Interval) : Prop := a.stop = b.start

/-- `Interval.overlaps`: `self.start < other.start and self.end > other.start
and self.end < other.end`. -/
abbrev overlaps (a b : Interval) : Prop :=
  a.start < b.start ∧ a.stop > b.start ∧ a.stop < b.stop

/-- `Interval.starts`: `self.start == other.start and self.end < other.end`. -/
abbrev starts (a b : Interval) : Prop := a.start = b.start ∧ a.stop < b.stop

/-- `Interval.during`: `self.start > other.start and self.end < other.end`. -/
abbrev during (a b : Interval) : Prop := a.start > b.start ∧ a.stop < b.stop

/-- `Interval.finishes`: `self.start > other.start and self.end == other.end`. -/
abbrev finishes (a b : Interval) : Prop := a.start > b.start ∧ a.stop = b.stop

/-- `Interval.equals`: `self.start == other.start and self.end == other.end`. -/
abbrev equals (a b : Interval) : Prop := a.start = b.start ∧ a.stop = b.stop

/-- `Interval.finished_by`: `self.start < other.start and self.end == other.end`. -/
abbrev finished_by (a b : Interval) : Prop := a.start < b.start ∧ a.stop = b.stop

/-- `Interval.contains`: `self.start < other.start and self.end > other.end`. -/
abbrev contains (a b : Interval) : Prop := a.start < b.start ∧ a.stop > b.stop

/-- `Interval.started_by`: `self.start == other.start and self.end > other.end`. -/
abbrev started_by (a b : Interval) : Prop := a.start = b.start ∧ a.stop > b.stop

/-- `Interval.overlapped_by`: `self.start > other.start and self.start < other.end
and self.end > other.end`. -/
abbrev overlapped_by (a b : Interval) : Prop :=
  a.start > b.start ∧ a.start < b.stop ∧ a.stop > b.stop

/-- `Interval.met_by`: `self.start == other.end`. -/
abbrev met_by (a b : Interval) : Prop := a.start = b.stop

/-- `Interval.preceded_by`: `self.start > other.end`. -/
abbrev preceded_by (a b : Interval) : Prop := a.start > b.stop

/-- The number of the thirteen Allen relations that hold of the ordered pair
`(a, b)`. -/
def allenCount (a b : Interval) : ℕ :=
  (if a.precedes b then 1 else 0) + (if a.meets b then 1 else 0) +
  (if a.overlaps b then 1 else 0) + (if a.starts b then 1 else 0) +
  (if a.during b then 1 else 0) + (if a.finishes b then 1 else 0) +
  (if a.equals b then 1 else 0) + (if a.finished_by b then 1 else 0) +
  (if a.contains b then 1 else 0) + (if a.started_by b then 1 else 0) +
  (if a.overlapped_by b then 1 else 0) + (if a.met_by b then 1 else 0) +
  (if a.preceded_by b then 1 else 0)

end Interval

end Sched

/-- C9. Allen-13 exhaustiveness and mutual exclusion: for every ordered pair
of non-empty intervals, exactly one of the thirteen relation predicates of
`Interval` holds. -/
theorem C9_allen_thirteen_exactly_one (a b : Sched.Interval)
    (ha : a.start < a.stop) (hb : b.start < b.stop) :
    Sched.Interval.allenCount a b = 1 := by
  simp only [Sched.Interval.allenCount, Sched.Interval.precedes, Sched.Interval.meets,
    Sched.Interval.overlaps, Sched.Interval.starts, Sched.Interval.during,
    Sched.Interval.finishes, Sched.Interval.equals, Sched.Interval.finished_by,
    Sched.Interval.contains, Sched.Interval.started_by, Sched.Interval.overlapped_by,
    Sched.Interval.met_by, Sched.Interval.preceded_by]
  rcases lt_trichotomy a.start b.start with h1 | h1 | h1
  · rcases lt_trichotomy a.stop b.start with h2 | h2 | h2
    · -- a precedes b
      simp [ha, hb, ha.ne, ha.ne', lt_asymm ha, hb.ne, hb.ne', lt_asymm hb, h1, h2, lt_asymm h1, lt_asymm h2, h1.ne, h1.ne', h2.ne, h2.ne',
        (show a.start < b.stop by linarith), (show a.start ≠ b.stop by linarith),
        (show ¬ b.stop < a.start by linarith), (show a.stop < b.stop by linarith),
        (show a.stop ≠ b.stop by linarith), (show ¬ b.stop < a.stop by linarith)]
    · -- a meets b
      simp [ha, hb, ha.ne, ha.ne', lt_asymm ha, hb.ne, hb.ne', lt_asymm hb, h1, h2, lt_asymm h1, h1.ne, h1.ne',
        (show a.start < b.stop by linarith), (show a.start ≠ b.stop by linarith),
        (show ¬ b.stop < a.start by linarith), (show a.stop < b.stop by linarith),
        (show a.stop ≠ b.stop by linarith), (show ¬ b.stop < a.stop by linarith)]
    · rcases lt_trichotomy a.stop b.stop with h3 | h3 | h3
      · -- a overlaps b
        simp [ha, hb, ha.ne, ha.ne', lt_asymm ha, hb.ne, hb.ne', lt_asymm hb, h1, h2, h3, lt_asymm h1, lt_asymm h2, lt_asymm h3, h1.ne, h1.ne',
          h2.ne, h2.ne', h3.ne, h3.ne',
          (show a.start < b.stop by linarith), (show a.start ≠ b.stop by linarith),
          (show ¬ b.stop < a.start by linarith)]
      · -- a finished_by b
        simp [ha, hb, ha.ne, ha.ne', lt_asymm ha, hb.ne, hb.ne', lt_asymm hb, h1, h2, h3, lt_asymm h1, lt_asymm h2, h1.ne, h1.ne', h2.ne, h2.ne',
          (show a.start < b.stop by linarith), (show a.start ≠ b.stop by linarith),
          (show ¬ b.stop < a.start by linarith)]
      · -- a contains b
        simp [ha, hb, ha.ne, ha.ne', lt_asymm ha, hb.ne, hb.ne', lt_asymm hb, h1, h2, h3, lt_asymm h1, lt_asymm h2, lt_asymm h3, h1.ne, h1.ne',
          h2.ne, h2.ne', h3.ne, h3.ne',
          (show a.start < b.stop by linarith), (show a.start ≠ b.stop by linarith),
          (show ¬ b.stop < a.start by linarith)]
  · rcases lt_trichotomy a.stop b.stop with h2 | h2 | h2
    · -- a starts b
      simp [ha, hb, ha.ne, ha.ne', lt_asymm ha, hb.ne, hb.ne', lt_asymm hb, h1, h2, lt_asymm h2, h2.ne, h2.ne',
        (show b.start < a.stop by rw [← h1]; exact ha),
        (show ¬ a.stop < b.start by rw [← h1]; exact lt_asymm ha),
        (show a.stop ≠ b.start by rw [← h1]; exact ha.ne'),
        (show b.start ≠ a.stop by rw [← h1]; exact ha.ne),
        (show a.start < b.stop by linarith), (show a.start ≠ b.stop by linarith),
        (show ¬ b.stop < a.start by linarith)]
    · -- a equals b
      simp [ha, hb, ha.ne, ha.ne', lt_asymm ha, hb.ne, hb.ne', lt_asymm hb, h1, h2,
        (show b.start < a.stop by rw [← h1]; exact ha),
        (show ¬ a.stop < b.start by rw [← h1]; exact lt_asymm ha),
        (show a.stop ≠ b.start by rw [← h1]; exact ha.ne'),
        (show a.start < b.stop by linarith), (show a.start ≠ b.stop by linarith),
        (show ¬ b.stop < a.start by linarith)]
    · -- a started_by b
      simp [ha, hb, ha.ne, ha.ne', lt_asymm ha, hb.ne, hb.ne', lt_asymm hb, h1, h2, lt_asymm h2, h2.ne, h2.ne',
        (show b.start < a.stop by rw [← h1]; exact ha),
        (show ¬ a.stop < b.start by rw [← h1]; exact lt_asymm ha),
        (show a.stop ≠ b.start by rw [← h1]; exact ha.ne'),
        (show a.start < b.stop by linarith), (show a.start ≠ b.stop by linarith),
        (show ¬ b.stop < a.start by linarith)]
  · rcases lt_trichotomy a.start b.stop with h2 | h2 | h2
    · rcases lt_trichotomy a.stop b.stop with h3 | h3 | h3
      · -- a during b
        simp [ha, hb, ha.ne, ha.ne', lt_asymm ha, hb.ne, hb.ne', lt_asymm hb, h1, h2, h3, lt_asymm h1, lt_asymm h2, lt_asymm h3, h1.ne, h1.ne',
          h2.ne, h2.ne', h3.ne, h3.ne',
          (show b.start < a.stop by linarith), (show ¬ a.stop < b.start by linarith),
          (show a.stop ≠ b.start by linarith)]
      · -- a finishes b
        simp [ha, hb, ha.ne, ha.ne', lt_asymm ha, hb.ne, hb.ne', lt_asymm hb, h1, h2, h3, lt_asymm h1, lt_asymm h2, h1.ne, h1.ne', h2.ne, h2.ne',
          (show b.start < a.stop by linarith), (show ¬ a.stop < b.start by linarith),
          (show a.stop ≠ b.start by linarith)]
      · -- a overlapped_by b
        simp [ha, hb, ha.ne, ha.ne', lt_asymm ha, hb.ne, hb.ne', lt_asymm hb, h1, h2, h3, lt_asymm h1, lt_asymm h2, lt_asymm h3, h1.ne, h1.ne',
          h2.ne, h2.ne', h3.ne, h3.ne',
          (show b.start < a.stop by linarith), (show ¬ a.stop < b.start by linarith),
          (show a.stop ≠ b.start by linarith)]
    · -- a met_by b
      simp [ha, hb, ha.ne, ha.ne', lt_asymm ha, hb.ne, hb.ne', lt_asymm hb, h1, h2, lt_asymm h1, h1.ne, h1.ne',
        (show b.start < a.stop by linarith), (show ¬ a.stop < b.start by linarith),
        (show a.stop ≠ b.start by linarith), (show b.stop < a.stop by linarith),
        (show a.stop ≠ b.stop by linarith), (show ¬ a.stop < b.stop by linarith)]
    · -- a preceded_by b
      simp [ha, hb, ha.ne, ha.ne', lt_asymm ha, hb.ne, hb.ne', lt_asymm hb, h1, h2, lt_asymm h1, lt_asymm h2, h1.ne, h1.ne', h2.ne, h2.ne',
        (show b.start < a.stop by linarith), (show ¬ a.stop < b.start by linarith),
        (show a.stop ≠ b.start by linarith), (show b.stop < a.stop by linarith),
        (show a.stop ≠ b.stop by linarith), (show ¬ a.stop < b.stop by linarith)]

/-- Witness for C9: the pair `([0,2], [1,3])` of non-empty intervals
satisfies exactly one relation (it overlaps the other). -/
theorem C9_allen_thirteen_exactly_one_witness :
    ((0 : ℚ) < 2 ∧ (1 : ℚ) < 3) ∧ Sched.Interval.allenCount ⟨0, 2⟩ ⟨1, 3⟩ = 1 :=
  ⟨⟨by norm_num, by norm_num⟩,
    C9_allen_thirteen_exactly_one ⟨0, 2⟩ ⟨1, 3⟩ (by norm_num) (by norm_num)⟩

/-! ## Sampling lemmas for `get_point_at_time` -/

/-- For a non-empty trajectory, `end_time` is the time of the last point. -/
theorem Trajectory.endTime_eq_getLast (T : Trajectory) (hne : T.points ≠ []) :
    T.endTime = (T.points.getLast hne).time := by
  rw [Trajectory.endTime, List.getLastD_eq_getLast?, List.getLast?_eq_getLast_of_ne_nil hne,
    Option.getD_some]

/-- For a non-empty trajectory, `start_time` is the time of the first point. -/
theorem Trajectory.startTime_eq_head (T : Trajectory) (hne : T.points ≠ []) :
    T.startTime = (T.points.head hne).time := by
  cases T with
  | mk pts =>
    cases pts with
    | nil => exact absurd rfl hne
    | cons a l => rfl

/-- The `time` of an interpolated point, by definition. -/
theorem TrajectoryPoint.interp_time (p q : TrajectoryPoint) (s : ℚ) :
    (p.interp q s).time = s * (q.time - p.time) + p.time := rfl

/-- The `data` of an interpolated point, by definition. -/
theorem TrajectoryPoint.interp_data (p q : TrajectoryPoint) (s : ℚ) :
    (p.interp q s).data = s • (q.data - p.data) + p.data := rfl

/-- As long as `t` does not exceed `end_time`, the `bisect_left` index stays
within the point list (the last point's time is not `< t`). -/
theorem Trajectory.bisectLeft_lt_length (T : Trajectory) (t : ℚ) (hne : T.points ≠ [])
    (h1 : t ≤ T.endTime) : T.bisectLeft t < T.points.length := by
  rcases lt_or_eq_of_le (List.countP_le_length (fun p => decide (p.time < t)) (l := T.points))
    with h | h
  · exact h
  · exfalso
    have hall := List.countP_eq_length.mp h (T.points.getLast hne) (List.getLast_mem hne)
    rw [T.endTime_eq_getLast hne] at h1
    simp only [decide_eq_true_eq] at hall
    linarith

/-- In-domain sampling on a strictly increasing trajectory returns a point
stamped exactly at the query time. -/
theorem Trajectory.getPointAtTime_mem_domain (T : Trajectory) (t : ℚ)
    (hne : T.points ≠ [])
    (hsort : T.points.Pairwise (fun p q => p.time < q.time))
    (h0 : T.startTime ≤ t) (h1 : t ≤ T.endTime) :
    ∃ p, T.getPointAtTime t = some p ∧ p.time = t := by
  have hdom : ¬ (t < T.startTime ∨ t > T.endTime) := by
    push_neg
    exact ⟨h0, h1⟩
  have hans : T.bisectLeft t < T.points.length := T.bisectLeft_lt_length t hne h1
  have hlen : T.points.length ≠ 0 := by
    simpa [List.length_eq_zero] using hne
  rw [Trajectory.getPointAtTime, if_neg hne, if_neg hdom, Trajectory.gpatSeg]
  by_cases hzero : T.bisectLeft t = 0
  · by_cases hone : T.points.length = 1
    · -- single-point trajectory: `s == e`, and the domain pins `t`
      obtain ⟨a, ha⟩ := List.length_eq_one.mp hone
      have hS : T.gpatS t = a := by rw [Trajectory.gpatS, hzero, ha]; rfl
      have hE : T.gpatE t = a := by rw [Trajectory.gpatE, if_pos hzero, ha]; rfl
      rw [if_pos (hS.trans hE.symm), hS]
      refine ⟨a, rfl, ?_⟩
      rw [Trajectory.startTime, ha] at h0
      rw [Trajectory.endTime, ha] at h1
      simp only [List.headD_cons, List.getLastD_cons, List.getLastD_nil] at h0 h1
      linarith
    · -- at least two points: `s` is the first point, `e` the last, `s ≠ e`
      have hS : T.gpatS t = T.points.get ⟨0, Nat.pos_of_ne_zero hlen⟩ := by
        rw [Trajectory.gpatS, hzero, List.get_eq_getElem]
        exact List.getD_eq_getElem _ _ _
      have hE : T.gpatE t = T.points.get ⟨T.points.length - 1,
          Nat.sub_lt (Nat.pos_of_ne_zero hlen) one_pos⟩ := by
        rw [Trajectory.gpatE, if_pos hzero, List.getLastD_eq_getLast?,
          List.getLast?_eq_getLast_of_ne_nil hne, Option.getD_some, List.getLast_eq_getElem,
          List.get_eq_getElem]
      have hlt : (T.gpatS t).time < (T.gpatE t).time := by
        rw [hS, hE]
        simp only [List.get_eq_getElem]
        exact List.pairwise_iff_getElem.mp hsort 0 (T.points.length - 1)
          (Nat.pos_of_ne_zero hlen) (Nat.sub_lt (Nat.pos_of_ne_zero hlen) one_pos)
          (by omega)
      have hse : T.gpatS t ≠ T.gpatE t := fun hc => absurd (hc ▸ hlt) (lt_irrefl _)
      have hne' : (T.gpatE t).time - (T.gpatS t).time ≠ 0 :=
        sub_ne_zero_of_ne (ne_of_gt hlt)
      rw [if_neg hse]
      refine ⟨_, rfl, ?_⟩
      rw [TrajectoryPoint.interp_time, div_mul_eq_mul_div, mul_comm,
        ← div_mul_eq_mul_div, div_self hne']
      ring
  · -- interior index: `e` is the previous point, strictly earlier than `s`
    have hS : T.gpatS t = T.points.get ⟨T.bisectLeft t, hans⟩ := by
      rw [Trajectory.gpatS, List.get_eq_getElem]
      exact List.getD_eq_getElem _ _ _
    have hE : T.gpatE t = T.points.get ⟨T.bisectLeft t - 1,
        Nat.lt_of_le_of_lt (Nat.sub_le _ _) hans⟩ := by
      rw [Trajectory.gpatE, if_neg hzero, List.get_eq_getElem]
      exact List.getD_eq_getElem _ _ _
    have hlt : (T.gpatE t).time < (T.gpatS t).time := by
      rw [hS, hE]
      simp only [List.get_eq_getElem]
      exact List.pairwise_iff_getElem.mp hsort (T.bisectLeft t - 1) (T.bisectLeft t)
        (Nat.lt_of_le_of_lt (Nat.sub_le _ _) hans) hans (by omega)
    have hse : T.gpatS t ≠ T.gpatE t := fun hc => absurd (hc ▸ hlt) (lt_irrefl _)
    have hne' : (T.gpatE t).time - (T.gpatS t).time ≠ 0 :=
      sub_ne_zero_of_ne (ne_of_lt hlt)
    rw [if_neg hse]
    refine ⟨_, rfl, ?_⟩
    rw [TrajectoryPoint.interp_time, div_mul_eq_mul_div, mul_comm,
      ← div_mul_eq_mul_div, div_self hne']
    ring

/-! ## C6: `Trajectory.slice` -/

/-- The trajectory of spec scenario S5: points `([-1,0,0],0)`, `([0,0,0],1)`,
`([1,0,0],2)`. -/
def trajS5 : Trajectory :=
  ⟨[⟨(-1, 0, 0), 0⟩, ⟨(0, 0, 0), 1⟩, ⟨(1, 0, 0), 2⟩]⟩

/-- C6, counterexample. The claim describes every non-disjoint window as
sliced to `interpolated point at t0 :: interior points :: interpolated point
at t1`. For the window `[-1/2, 1/2]`, which meets the time span `[0, 2]` of
the S5 trajectory, the code omits the `t0` endpoint entirely
(`get_point_at_time(-1/2)` is `None` because `-1/2 < start_time`): the slice
is `[([-1,0,0],0), ([-1/2,0,0],1/2)]`, whose first point has time `0`, not
`t0 = -1/2`. -/
theorem C6_counterexample :
    ¬ ((-1/2 : ℚ) > trajS5.endTime ∨ (1/2 : ℚ) < trajS5.startTime) ∧
    trajS5.getPointAtTime (-1/2) = none ∧
    (trajS5.slice (-1/2) (1/2)).points.map (fun p => p.time) = [0, 1/2] := by
  refine ⟨?_, ?_, ?_⟩
  · norm_num [trajS5, Trajectory.endTime, Trajectory.startTime]
  · norm_num [trajS5, Trajectory.getPointAtTime, Trajectory.startTime]
  · norm_num [trajS5, Trajectory.slice, Trajectory.endTime, Trajectory.startTime,
      Trajectory.getPointAtTime, Trajectory.gpatSeg, Trajectory.gpatS, Trajectory.gpatE,
      Trajectory.bisectLeft, List.countP_cons, dummyPt, v3zero,
      TrajectoryPoint.interp, List.filter, apply_ite Trajectory.points]
    simp

/-- C6 (amended). On a trajectory with strictly increasing point times and
`t0 ≤ t1`: a window disjoint from the time span slices to the empty
trajectory; a window whose endpoints both lie in `[start_time, end_time]`
slices to the sample at `t0`, the points strictly inside the window, and the
sample at `t1` (both samples exist and are stamped at the query times); and
`slice(t,t)` with `t` in the domain is the single sample at `t`. (Endpoints
outside the domain are omitted rather than interpolated — see the
counterexample.) Moreover the S5 instance: `slice(0.5, 1.5)` of the
trajectory `([-1,0,0],0), ([0,0,0],1), ([1,0,0],2)` is exactly
`([-0.5,0,0],0.5), ([0,0,0],1.0), ([0.5,0,0],1.5)`. -/
theorem C6_slice :
    (∀ (T : Trajectory) (t0 t1 : ℚ), T.points ≠ [] →
      T.points.Pairwise (fun p q => p.time < q.time) → t0 ≤ t1 →
      ((t0 > T.endTime ∨ t1 < T.startTime) → (T.slice t0 t1).points = []) ∧
      (T.startTime ≤ t0 → t1 ≤ T.endTime → t0 < t1 →
        ∃ p0 p1, T.getPointAtTime t0 = some p0 ∧ p0.time = t0 ∧
          T.getPointAtTime t1 = some p1 ∧ p1.time = t1 ∧
          (T.slice t0 t1).points =
            p0 :: (T.points.filter
              (fun p => decide (t0 < p.time) && decide (p.time < t1)) ++ [p1])) ∧
      (T.startTime ≤ t0 → t0 ≤ T.endTime →
        ∃ p0, T.getPointAtTime t0 = some p0 ∧ p0.time = t0 ∧
          (T.slice t0 t0).points = [p0])) ∧
    (trajS5.slice (1/2) (3/2)).points =
      [⟨(-1/2, 0, 0), 1/2⟩, ⟨(0, 0, 0), 1⟩, ⟨(1/2, 0, 0), 3/2⟩] := by
  constructor
  · intro T t0 t1 hne hsort h01
    refine ⟨?_, ?_, ?_⟩
    · intro h
      rw [Trajectory.slice, if_neg hne, if_pos h]
    · intro h00 h11 hlt
      have h01' : t0 ≤ T.endTime := le_trans hlt.le h11
      have h10' : T.startTime ≤ t1 := le_trans h00 hlt.le
      obtain ⟨p0, hp0, hp0t⟩ := T.getPointAtTime_mem_domain t0 hne hsort h00 h01'
      obtain ⟨p1, hp1, hp1t⟩ := T.getPointAtTime_mem_domain t1 hne hsort h10' h11
      have hdisj : ¬ (t0 > T.endTime ∨ t1 < T.startTime) := by
        push_neg
        exact ⟨h01', h10'⟩
      refine ⟨p0, p1, hp0, hp0t, hp1, hp1t, ?_⟩
      simp only [Trajectory.slice, if_neg hne, if_neg hdisj, if_neg (ne_of_lt hlt),
        hp0, hp1, Option.toList_some]
      simp
    · intro h00 h11
      obtain ⟨p0, hp0, hp0t⟩ := T.getPointAtTime_mem_domain t0 hne hsort h00 h11
      have hdisj : ¬ (t0 > T.endTime ∨ t0 < T.startTime) := by
        push_neg
        exact ⟨h11, h00⟩
      refine ⟨p0, hp0, hp0t, ?_⟩
      simp [Trajectory.slice, if_neg hne, if_neg hdisj, hp0, Option.toList_some]
  · norm_num [trajS5, Trajectory.slice, Trajectory.endTime, Trajectory.startTime,
      Trajectory.getPointAtTime, Trajectory.gpatSeg, Trajectory.gpatS, Trajectory.gpatE,
      Trajectory.bisectLeft, List.countP_cons, dummyPt, v3zero,
      TrajectoryPoint.interp, List.filter, apply_ite Trajectory.points, Prod.ext_iff]
    simp

/-- Witness for C6 at the S5 trajectory and window `[1/2, 3/2]`: the
hypotheses hold and the sliced point times are `1/2, 1, 3/2`. -/
theorem C6_slice_witness :
    (trajS5.points ≠ [] ∧
      trajS5.points.Pairwise (fun p q => p.time < q.time) ∧ (1/2 : ℚ) ≤ 3/2 ∧
      trajS5.startTime ≤ 1/2 ∧ (3/2 : ℚ) ≤ trajS5.endTime ∧ (1/2 : ℚ) < 3/2) ∧
    (trajS5.slice (1/2) (3/2)).points.map (fun p => p.time) = [1/2, 1, 3/2] := by
  have hne : trajS5.points ≠ [] := by simp [trajS5]
  have hsort : trajS5.points.Pairwise (fun p q => p.time < q.time) := by decide
  have h0 : trajS5.startTime ≤ 1/2 := by norm_num [trajS5, Trajectory.startTime]
  have h1 : (3/2 : ℚ) ≤ trajS5.endTime := by norm_num [trajS5, Trajectory.endTime]
  refine ⟨⟨hne, hsort, by norm_num, h0, h1, by norm_num⟩, ?_⟩
  obtain ⟨p0, p1, hp0, hp0t, hp1, hp1t, heq⟩ :=
    ((C6_slice.1 trajS5 (1/2) (3/2) hne hsort (by norm_num)).2.1) h0 h1 (by norm_num)
  rw [heq]
  simp only [List.map_cons, List.map_append, List.map_cons, List.map_nil, hp0t, hp1t]
  norm_num [trajS5, List.filter]

/-! ## C7: `ToolpathSchedule.get_state` -/

/-- Placeholder event (for `headD`); unreachable under the hypotheses of the
theorems below. -/
def dummyEvent : MoveEvent := ⟨0, [], 0⟩

/-- `Schedule.start_time()`: the `_start_time` field starts at `float("inf")`
and is min-accumulated by `add_event`; `none` plays the role of `inf` for an
empty schedule. -/
def schedStart (events : List MoveEvent) : Option ℚ :=
  match events.map (fun e => e.start) with
  | [] => none
  | t :: ts => some (ts.foldl min t)

/-- The event loop of `ToolpathSchedule.get_state`: events that ended before
`time` update the running `state` to their terminal path point
(`e.data[-1]`); the first event with `e.end ≥ time` either covers `time`
(`e.start ≤ time`, returning the sampled trajectory position — Python would
raise if the sample were `None`, embedded as `none`) or lies in the future
(`break`, returning the accumulated state). -/
def getStateLoop (nrm : V3 → ℚ) (t : ℚ) : List MoveEvent → Option V3 → Option V3
  | [], state => state
  | e :: rest, state =>
    if e.stop nrm < t then getStateLoop nrm t rest (some (e.path.getLastD v3zero))
    else if e.start ≤ t then ((e.traj nrm).getPointAtTime t).map (fun p => p.data)
    else state

/-- `ToolpathSchedule.get_state(time, default)`. -/
def getState (nrm : V3 → ℚ) (events : List MoveEvent) (t : ℚ) (dflt : Option V3) :
    Option V3 :=
  match schedStart events with
  | none => dflt
  | some m => if t < m then dflt else getStateLoop nrm t events dflt

/-- `foldl min` never exceeds its seed. -/
theorem foldl_min_le_init (l : List ℚ) (a : ℚ) : l.foldl min a ≤ a := by
  induction l generalizing a with
  | nil => exact le_refl a
  | cons x xs ih => exact le_trans (ih (min a x)) (min_le_left a x)

/-- For a non-empty schedule, `start_time` is defined and bounded by the
first event's start. -/
theorem schedStart_le_head (events : List MoveEvent) (e : MoveEvent) (rest : List MoveEvent)
    (h : events = e :: rest) :
    ∃ m, schedStart events = some m ∧ m ≤ e.start := by
  subst h
  exact ⟨_, rfl, foldl_min_le_init _ _⟩

/-- In a schedule whose events touch end-to-start and have well-formed
intervals, the first event has the least start time. -/
theorem chain_head_start_le (nrm : V3 → ℚ) (e : MoveEvent) (rest : List MoveEvent)
    (hchain : List.Chain' (fun a b => a.stop nrm ≤ b.start) (e :: rest))
    (hb : ∀ f ∈ e :: rest, f.start ≤ f.stop nrm) :
    ∀ f ∈ rest, e.start ≤ f.start := by
  induction rest generalizing e with
  | nil => intro f hf; cases hf
  | cons g gs ih =>
    intro f hf
    have heg : e.stop nrm ≤ g.start := List.chain'_cons.mp hchain |>.1
    have heg' : e.start ≤ g.start :=
      le_trans (hb e (List.mem_cons_self e _)) heg
    rcases hf with _ | hf'
    · exact heg'
    · have := ih g (List.chain'_cons.mp hchain).2
        (fun f hf => hb f (List.mem_cons_of_mem e hf)) f (by assumption)
      exact le_trans heg' this

/-- Covering case of the loop: once every earlier event has ended strictly
before `t`, the first event whose interval reaches `t` is sampled. -/
theorem getStateLoop_covering (nrm : V3 → ℚ) (t : ℚ) (pre : List MoveEvent)
    (e : MoveEvent) (post : List MoveEvent) (state : Option V3)
    (hpre : ∀ f ∈ pre, f.stop nrm < t)
    (hstart : e.start ≤ t) (hstop : ¬ e.stop nrm < t) :
    getStateLoop nrm t (pre ++ e :: post) state =
      ((e.traj nrm).getPointAtTime t).map (fun p => p.data) := by
  induction pre generalizing state with
  | nil =>
    simp only [List.nil_append, getStateLoop, if_neg hstop, if_pos hstart]
  | cons f fs ih =>
    have hf := hpre f (List.mem_cons_self f fs)
    simp only [List.cons_append, getStateLoop, if_pos hf]
    exact ih _ (fun g hg => hpre g (List.mem_cons_of_mem f hg))

/-- Gap case of the loop: when every event up to and including `e` has ended
strictly before `t` and the next event (if any) starts strictly after `t`,
the state returned is `e`'s terminal path point. -/
theorem getStateLoop_gap (nrm : V3 → ℚ) (t : ℚ) (pre : List MoveEvent)
    (e : MoveEvent) (post : List MoveEvent) (state : Option V3)
    (hpre : ∀ f ∈ pre, f.stop nrm < t)
    (he : e.stop nrm < t)
    (hpost : ∀ g rest, post = g :: rest → t < g.start ∧ g.start ≤ g.stop nrm) :
    getStateLoop nrm t (pre ++ e :: post) state = some (e.path.getLastD v3zero) := by
  induction pre generalizing state with
  | nil =>
    simp only [List.nil_append, getStateLoop, if_pos he]
    cases post with
    | nil => rfl
    | cons g rest =>
      obtain ⟨hg1, hg2⟩ := hpost g rest rfl
      have hg3 : ¬ g.stop nrm < t := not_lt.mpr (le_trans hg1.le hg2)
      simp only [getStateLoop, if_neg hg3, if_neg (not_le.mpr hg1)]
  | cons f fs ih =>
    have hf := hpre f (List.mem_cons_self f fs)
    simp only [List.cons_append, getStateLoop, if_pos hf]
    exact ih _ (fun g hg => hpre g (List.mem_cons_of_mem f hg))

/-- `foldl min` on a list bounded below by the seed returns the seed. -/
theorem foldl_min_all_ge (a : ℚ) (l : List ℚ) (h : ∀ x ∈ l, a ≤ x) :
    l.foldl min a = a := by
  induction l with
  | nil => rfl
  | cons x xs ih =>
    rw [List.foldl_cons, min_eq_left (h x (List.mem_cons_self x xs))]
    exact ih (fun y hy => h y (List.mem_cons_of_mem x hy))

/-- `get_state` on a non-empty schedule, unfolded: the `start_time` guard
followed by the event loop. -/
theorem getState_cons (nrm : V3 → ℚ) (t : ℚ) (dflt : Option V3) (f0 : MoveEvent)
    (rest0 : List MoveEvent) :
    getState nrm (f0 :: rest0) t dflt =
      if t < (rest0.map (fun e => e.start)).foldl min f0.start then dflt
      else getStateLoop nrm t (f0 :: rest0) dflt := rfl

/-- C7. `ToolpathSchedule.get_state(t, default)` on a schedule stored in
ascending time order: `default` when there are no events or `t` precedes the
first event's start; the sampled position of the first event covering `t`
when one exists (every earlier event having ended before `t`); and the
terminal path point of the latest event ending before `t` when `t` falls in
a gap after the schedule has started. -/
theorem C7_get_state (nrm : V3 → ℚ) (t : ℚ) (dflt : Option V3) :
    (getState nrm [] t dflt = dflt) ∧
    (∀ (e : MoveEvent) (rest : List MoveEvent),
      List.Chain' (fun a b => a.stop nrm ≤ b.start) (e :: rest) →
      (∀ f ∈ e :: rest, f.start ≤ f.stop nrm) →
      t < e.start →
      getState nrm (e :: rest) t dflt = dflt) ∧
    (∀ (pre : List MoveEvent) (e : MoveEvent) (post : List MoveEvent),
      (∀ f ∈ pre, f.start ≤ f.stop nrm) →
      (∀ f ∈ pre, f.stop nrm < t) →
      e.start ≤ t → t ≤ e.stop nrm →
      getState nrm (pre ++ e :: post) t dflt =
        ((e.traj nrm).getPointAtTime t).map (fun p => p.data)) ∧
    (∀ (pre : List MoveEvent) (e : MoveEvent) (post : List MoveEvent),
      (∀ f ∈ pre ++ [e], f.start ≤ f.stop nrm) →
      (∀ f ∈ pre, f.stop nrm < t) →
      e.stop nrm < t →
      (∀ g rest, post = g :: rest → t < g.start ∧ g.start ≤ g.stop nrm) →
      ∀ hp : e.path ≠ [],
      getState nrm (pre ++ e :: post) t dflt = some (e.path.getLast hp)) := by
  refine ⟨rfl, ?_, ?_, ?_⟩
  · -- before the schedule starts
    intro e rest hchain hb ht
    have hall := chain_head_start_le nrm e rest hchain hb
    have hmin : (rest.map (fun e => e.start)).foldl min e.start = e.start := by
      refine foldl_min_all_ge e.start _ ?_
      intro x hx
      obtain ⟨f, hf, rfl⟩ := List.mem_map.mp hx
      exact hall f hf
    rw [getState_cons, hmin, if_pos ht]
  · -- a covering event, all earlier events over
    intro pre e post hbpre hpre hstart hstop
    have hloop := getStateLoop_covering nrm t pre e post dflt hpre hstart (not_lt.mpr hstop)
    cases pre with
    | nil =>
      rw [List.nil_append] at hloop ⊢
      rw [getState_cons, if_neg (not_lt.mpr (le_trans (foldl_min_le_init _ _) hstart))]
      exact hloop
    | cons a l =>
      have ha : a.start ≤ t := by
        have h1 := hbpre a (List.mem_cons_self a l)
        have h2 := hpre a (List.mem_cons_self a l)
        linarith
      rw [List.cons_append] at hloop ⊢
      rw [getState_cons, if_neg (not_lt.mpr (le_trans (foldl_min_le_init _ _) ha))]
      exact hloop
  · -- a gap after the schedule has started
    intro pre e post hb hpre hstop hpost hp
    have hlast : e.path.getLastD v3zero = e.path.getLast hp := by
      rw [List.getLastD_eq_getLast?, List.getLast?_eq_getLast_of_ne_nil hp, Option.getD_some]
    have hloop := getStateLoop_gap nrm t pre e post dflt hpre hstop hpost
    rw [hlast] at hloop
    cases pre with
    | nil =>
      have he : e.start ≤ t := by
        have h1 := hb e (by simp)
        linarith
      rw [List.nil_append] at hloop ⊢
      rw [getState_cons, if_neg (not_lt.mpr (le_trans (foldl_min_le_init _ _) he))]
      exact hloop
    | cons a l =>
      have ha : a.start ≤ t := by
        have h1 := hb a (by simp)
        have h2 := hpre a (List.mem_cons_self a l)
        linarith
      rw [List.cons_append] at hloop ⊢
      rw [getState_cons, if_neg (not_lt.mpr (le_trans (foldl_min_le_init _ _) ha))]
      exact hloop

/-- First event of the `test_toolpath_schedule` scenario: contour
`(0,1,0) → (0,0,0) → (0,-1,0)` at velocity 1, started at `t = 0`. -/
def eventA : MoveEvent := ⟨0, [(0, 1, 0), (0, 0, 0), (0, -1, 0)], 1⟩

/-- Second event of the `test_toolpath_schedule` scenario: contour
`(0,-1,0) → (0,0,0) → (1,0,0)` at velocity 1, started at `t = 5`. -/
def eventB : MoveEvent := ⟨5, [(0, -1, 0), (0, 0, 0), (1, 0, 0)], 1⟩

/-- Witness for C7 at the schedule of the source's own unit test: at `t = 3`
(between the two events) `get_state` returns the first event's terminal
point `(0,-1,0)`. -/
theorem C7_get_state_witness :
    (∀ f ∈ [eventA], f.start ≤ f.stop l1norm) ∧
    eventA.stop l1norm < 3 ∧
    ((3 : ℚ) < eventB.start ∧ eventB.start ≤ eventB.stop l1norm) ∧
    getState l1norm [eventA, eventB] 3 none = some ((0 : ℚ), (-1 : ℚ), (0 : ℚ)) := by
  have hstopA : eventA.stop l1norm = 2 := by
    norm_num [eventA, MoveEvent.stop, MoveEvent.traj, Trajectory.fromConstVelPath,
      Trajectory.fromConstVelPath.go, Trajectory.endTime, l1norm]
  have hstopB : eventB.stop l1norm = 7 := by
    norm_num [eventB, MoveEvent.stop, MoveEvent.traj, Trajectory.fromConstVelPath,
      Trajectory.fromConstVelPath.go, Trajectory.endTime, l1norm]
  have hb : ∀ f ∈ [eventA], f.start ≤ f.stop l1norm := by
    intro f hf
    simp only [List.mem_singleton] at hf
    subst hf
    rw [hstopA]
    norm_num [eventA]
  have hpost : ∀ g rest, ([eventB] : List MoveEvent) = g :: rest →
      (3 : ℚ) < g.start ∧ g.start ≤ g.stop l1norm := by
    intro g rest hgr
    cases hgr
    exact ⟨by norm_num [eventB], by rw [hstopB]; norm_num [eventB]⟩
  have h := (C7_get_state l1norm 3 none).2.2.2 [] eventA [eventB]
    (by simpa using hb) (by intro f hf; cases hf)
    (by rw [hstopA]; norm_num) hpost (by simp [eventA])
  refine ⟨hb, by rw [hstopA]; norm_num, ⟨by norm_num [eventB], by rw [hstopB]; norm_num [eventB]⟩, ?_⟩
  rw [show ([eventA, eventB] : List MoveEvent) = [] ++ eventA :: [eventB] from rfl, h]
  simp [eventA, List.getLast]

/-! ## C2: the Δt derivation of `check_trajectory_collision` -/

/-- Tail of `np.argmin`: scan with the current best index and value; strict
`<` keeps the first occurrence of the minimum, as numpy does. -/
def npArgminAux : List ℚ → ℕ → ℕ → ℚ → ℕ
  | [], _, best, _ => best
  | x :: xs, i, best, bestv =>
    if x < bestv then npArgminAux xs (i + 1) i x else npArgminAux xs (i + 1) best bestv

/-- `np.argmin` over a list of rationals (0 on the empty list, where numpy
would raise). -/
def npArgmin : List ℚ → ℕ
  | [] => 0
  | x :: xs => npArgminAux xs 1 0 x

/-- Lines 149–153 of `trajectory_collision_detection.py`:
`max_vel_idx = np.argmin([t.distance() / t.elapsed() for t in trajectories])`,
`n_steps = trajectories[max_vel_idx].distance() / threshold`,
`delta_t = trajectories[max_vel_idx].elapsed() / n_steps`. Despite the
comment "find trajectory with the fastest velocity", `np.argmin` selects the
*slowest* trajectory. -/
def checkTrajDeltaT (nrm : V3 → ℚ) (trajs : List Trajectory) (threshold : ℚ) : ℚ :=
  let idx := npArgmin (trajs.map (fun T => T.distance nrm / T.elapsed))
  let tsel := trajs.getD idx ⟨[]⟩
  let nSteps := tsel.distance nrm / threshold
  tsel.elapsed / nSteps

/-- The unit-elapsed trajectory of speed 10 along x. -/
def trajFast : Trajectory := ⟨[⟨(0, 0, 0), 0⟩, ⟨(10, 0, 0), 1⟩]⟩

/-- The unit-elapsed trajectory of speed 1 along x. -/
def trajSlow : Trajectory := ⟨[⟨(0, 0, 0), 0⟩, ⟨(1, 0, 0), 1⟩]⟩

/-- C2 (code bug), evaluated at the failing input. With the fast trajectory
(distance 10 over 1s) and the slow one (distance 1 over 1s) and
`threshold = 1`, the code's `np.argmin` picks the slow trajectory, giving
`Δt = 1`, not the claimed `elapsed·threshold/distance = 1/10` of the fastest
trajectory; stepping by `Δt = 1` displaces the fastest trajectory by 10,
beyond the threshold the step size was meant to guarantee. -/
theorem C2_delta_t_failing_input :
    checkTrajDeltaT l1norm [trajFast, trajSlow] 1 = 1 ∧
    trajFast.elapsed * 1 / trajFast.distance l1norm = 1 / 10 ∧
    (1 : ℚ) ≠ 1 / 10 ∧
    trajFast.distance l1norm / trajFast.elapsed *
      checkTrajDeltaT l1norm [trajFast, trajSlow] 1 > 1 := by
  have hfd : trajFast.distance l1norm = 10 := by
    norm_num [trajFast, Trajectory.distance, l1norm]
  have hsd : trajSlow.distance l1norm = 1 := by
    norm_num [trajSlow, Trajectory.distance, l1norm]
  have hfe : trajFast.elapsed = 1 := by
    norm_num [trajFast, Trajectory.elapsed, Trajectory.endTime, Trajectory.startTime]
    simp
  have hse : trajSlow.elapsed = 1 := by
    norm_num [trajSlow, Trajectory.elapsed, Trajectory.endTime, Trajectory.startTime]
    simp
  have hdt : checkTrajDeltaT l1norm [trajFast, trajSlow] 1 = 1 := by
    rw [checkTrajDeltaT]
    simp only [List.map_cons, List.map_nil, hfd, hsd, hfe, hse]
    norm_num [npArgmin, npArgminAux, List.getD, hsd, hse]
  refine ⟨hdt, ?_, by norm_num, ?_⟩
  · rw [hfd, hfe]
    norm_num
  · rw [hdt, hfd, hfe]
    norm_num

/-! ## C10: `FCLRobotBBCollisionModel.translation` setter -/

/-- Rotation about the world Z axis, represented exactly by the cosine `c`
and sine `s` of its angle, applied to a vector: this is
`Transform.Rz(atan2(s, c)) * v` for `c² + s² = 1`. -/
def rotZ (c s : ℚ) (v : V3) : V3 :=
  (c * v.1 - s * v.2.1, s * v.1 + c * v.2.1, v.2.2)

/-- `_box_center_in_eef = offset + [-dims[0] * 0.5, 0, 0]` (constructor of
`FCLRobotBBCollisionModel`). -/
def boxCenterInEef (dims offset : V3) : V3 := offset + (-dims.1 / 2, 0, 0)

/-- The box pose translation computed by the `translation` setter:
`self._transform.t = self._eef_transform * self._box_center_in_eef`, where
`_eef_transform` is `Transform.Rz(atan2(dir[1], dir[0]))` with translation
`value`; `Transform.__mul__` on a vector is `R·v + t`. -/
def boxTranslation (dims offset : V3) (c s : ℚ) (value : V3) : V3 :=
  rotZ c s (boxCenterInEef dims offset) + value

/-- `(c, s) = unit_vector2(value[:2] - anchor[:2])`: the planar direction
from the anchor to the end-effector, normalized; stated exactly as "the
difference is a positive multiple of the unit vector `(c, s)`". -/
def unitDir2 (anchor value : V3) (c s : ℚ) : Prop :=
  ∃ n : ℚ, 0 < n ∧ value.1 - anchor.1 = n * c ∧ value.2.1 - anchor.2.1 = n * s ∧
    c ^ 2 + s ^ 2 = 1

/-- C10, counterexample. Place the anchor at the origin and the end effector
at `p = (1, 0, 5)` (so the in-plane direction is `+x`, `c = 1, s = 0`), with
box length `lx = 2` and zero offset. The computed box center is
`p + R·(offset - (lx/2,0,0)) = (0, 0, 5)`: its `z` component is `p.z = 5`,
not the anchor's `z = 0` — the code performs no clamping of the `z`
component to `anchor.z`. -/
theorem C10_counterexample :
    unitDir2 (0, 0, 0) (1, 0, 5) 1 0 ∧
    boxTranslation (2, 2, 2) (0, 0, 0) 1 0 (1, 0, 5) = ((0 : ℚ), (0 : ℚ), (5 : ℚ)) ∧
    (boxTranslation (2, 2, 2) (0, 0, 0) 1 0 (1, 0, 5)).2.2 ≠ ((0 : ℚ), (0 : ℚ), (0 : ℚ)).2.2 := by
  refine ⟨⟨1, by norm_num⟩, ?_, ?_⟩ <;>
    norm_num [boxTranslation, boxCenterInEef, rotZ, Prod.ext_iff]

/-- C10 (amended). Whenever the translation of the anchored-box model is set
to a world point `value` whose planar direction from the anchor is the unit
vector `(c, s)`, the box pose translation is
`value + R·(offset - (lx/2, 0, 0))` with `R` the rotation about the world Z
axis aligning local `+x` with `(c, s)` — and its `z` component is
`value.z + offset.z`, independent of `anchor.z` (no clamping). -/
theorem C10_box_translation (dims anchor offset value : V3) (c s : ℚ)
    (_h : unitDir2 anchor value c s) :
    boxTranslation dims offset c s value =
      value + rotZ c s (offset - (dims.1 / 2, 0, 0)) ∧
    (boxTranslation dims offset c s value).2.2 = value.2.2 + offset.2.2 := by
  constructor
  · simp only [boxTranslation, boxCenterInEef, rotZ, Prod.ext_iff, Prod.fst_add,
      Prod.snd_add, Prod.fst_sub, Prod.snd_sub]
    norm_num
    exact ⟨by ring, by ring, by ring⟩
  · simp only [boxTranslation, boxCenterInEef, rotZ, Prod.snd_add]
    norm_num
    ring

/-- Witness for C10 at a concrete pose: anchor `(1,1,0)`, end effector at
`(4,5,2)` (direction `(3/5, 4/5)`, scale 5), box length 2, offset `(0,0,1)`. -/
theorem C10_box_translation_witness :
    unitDir2 (1, 1, 0) (4, 5, 2) (3 / 5) (4 / 5) ∧
    (boxTranslation (2, 2, 2) (0, 0, 1) (3 / 5) (4 / 5) (4, 5, 2) =
      (4, 5, 2) + rotZ (3 / 5) (4 / 5) ((0, 0, 1) - ((2 : ℚ) / 2, 0, 0)) ∧
    (boxTranslation (2, 2, 2) (0, 0, 1) (3 / 5) (4 / 5) (4, 5, 2)).2.2 =
      (2 : ℚ) + 1) :=
  ⟨⟨5, by norm_num⟩,
    C10_box_translation (2, 2, 2) (1, 1, 0) (0, 0, 1) (4, 5, 2) (3 / 5) (4 / 5)
      ⟨5, by norm_num⟩⟩

/-! ## C4/C5: `continuous_collide` and `trajectory_collision_query` -/

/-- `np.linspace(0.0, 1.0, n)`: `n` evenly spaced samples including both
endpoints; empty for `n = 0`, `[0.0]` for `n = 1`. -/
def linspace01 (n : ℕ) : List ℚ :=
  if n = 0 then []
  else if n = 1 then [0]
  else (List.range n).map (fun i => (i : ℚ) / ((n : ℚ) - 1))

/-- `n = int(np.ceil(max(len1, len2) / threshold))` of `continuous_collide`,
where `len1`, `len2` are the norms of the two motion vectors. -/
def ccNumSamples (nrm : V3 → ℚ) (s1 f1 s2 f2 : V3) (threshold : ℚ) : ℕ :=
  (⌈max (nrm (f1 - s1)) (nrm (f2 - s2)) / threshold⌉).toNat

/-- `continuous_collide(model1, trans1_final, model2, trans2_final,
threshold)` with the models' mutable translations made explicit: `s1`, `s2`
are the translations read at entry (`start1`, `start2`), the Boolean is the
collision result over the `linspace` samples (the loop breaks at the first
hit, which equals `List.any`), and the returned pair is the translation
state after the final `model.translation = start` reset (lines 38–39). The
pairwise `in_collision` test is abstracted as `inCol` of the two
translations. -/
def continuousCollide (inCol : V3 → V3 → Bool) (nrm : V3 → ℚ)
    (s1 f1 s2 f2 : V3) (threshold : ℚ) : Bool × V3 × V3 :=
  let dir1 := f1 - s1
  let dir2 := f2 - s2
  let n := ccNumSamples nrm s1 f1 s2 f2 threshold
  let res := (linspace01 n).any (fun s => inCol (s1 + s • dir1) (s2 + s • dir2))
  (res, s1, s2)

/-- Python `sorted(set(l))`: sort the deduplicated list ascending. -/
def pySortedSet (l : List ℚ) : List ℚ := List.insertionSort (· ≤ ·) l.dedup

/-- The windows visited by `_ConcurrentSegmentIterator([traj1, traj2])`:
consecutive pairs of the sorted set of all point times. -/
def segWindows (t1 t2 : Trajectory) : List (ℚ × ℚ) :=
  let uts := pySortedSet ((t1.points.map (fun p => p.time)) ++
    (t2.points.map (fun p => p.time)))
  uts.zip uts.tail

/-- The loop of `trajectory_collision_query`: per window, set each model's
translation to the first point of its slice, run `continuous_collide`
toward the slice's last point, and stop at the first collision. `none`
models Python's `IndexError` on `traj_pair[i][0]` when a slice is empty. -/
def queryGo (inCol : V3 → V3 → Bool) (nrm : V3 → ℚ) (t1 t2 : Trajectory)
    (threshold : ℚ) : List (ℚ × ℚ) → V3 → V3 → Option (Bool × V3 × V3)
  | [], c1, c2 => some (false, c1, c2)
  | w :: ws, _, _ =>
    match (t1.slice w.1 w.2).points, (t2.slice w.1 w.2).points with
    | [], _ => none
    | _ :: _, [] => none
    | p :: ps, q :: qs =>
      let f1 := ((p :: ps).getLastD dummyPt).data
      let f2 := ((q :: qs).getLastD dummyPt).data
      let r := continuousCollide inCol nrm p.data f1 q.data f2 threshold
      if r.1 then some (true, r.2.1, r.2.2)
      else queryGo inCol nrm t1 t2 threshold ws r.2.1 r.2.2

/-- `trajectory_collision_query(model1, traj1, model2, traj2, threshold)`,
with the models' translations at entry passed as `init1`, `init2` and the
result paired with the models' translations at exit. -/
def trajectoryCollisionQuery (inCol : V3 → V3 → Bool) (nrm : V3 → ℚ)
    (t1 t2 : Trajectory) (threshold : ℚ) (init1 init2 : V3) :
    Option (Bool × V3 × V3) :=
  queryGo inCol nrm t1 t2 threshold (segWindows t1 t2) init1 init2

/-- Zero-length motions on both models sample nothing and report no
collision, whatever the pairwise test would say. -/
theorem continuousCollide_stationary (inCol : V3 → V3 → Bool) (nrm : V3 → ℚ)
    (s1 s2 : V3) (threshold : ℚ) (h0 : nrm 0 = 0) :
    ccNumSamples nrm s1 s1 s2 s2 threshold = 0 ∧
    continuousCollide inCol nrm s1 s1 s2 s2 threshold = (false, s1, s2) := by
  have hn : ccNumSamples nrm s1 s1 s2 s2 threshold = 0 := by
    simp [ccNumSamples, h0]
  refine ⟨hn, ?_⟩
  rw [continuousCollide]
  simp [hn, linspace01]

/-- In a strictly increasing point list, every point's time is at most the
last point's time. -/
theorem time_le_getLast (l : List TrajectoryPoint) (h : l ≠ [])
    (hs : l.Pairwise (fun p q => p.time < q.time)) :
    ∀ pt ∈ l, pt.time ≤ (l.getLast h).time := by
  induction l with
  | nil => exact absurd rfl h
  | cons a rest ih =>
    intro pt hpt
    cases rest with
    | nil =>
      simp only [List.mem_singleton] at hpt
      subst hpt
      rfl
    | cons b bs =>
      rw [List.getLast_cons (List.cons_ne_nil b bs)]
      rcases hpt with _ | hpt'
      · exact le_of_lt (List.rel_of_pairwise_cons hs (List.getLast_mem _))
      · exact ih (List.cons_ne_nil b bs)
          (List.Pairwise.sublist (List.sublist_cons_self a (b :: bs)) hs)
          pt (by assumption)

/-- In a strictly increasing point list, the head's time bounds every
point's time from below. -/
theorem head_time_le (l : List TrajectoryPoint) (h : l ≠ [])
    (hs : l.Pairwise (fun p q => p.time < q.time)) :
    ∀ pt ∈ l, (l.head h).time ≤ pt.time := by
  cases l with
  | nil => exact absurd rfl h
  | cons a rest =>
    intro pt hpt
    rcases hpt with _ | hpt'
    · rfl
    · exact le_of_lt (List.rel_of_pairwise_cons hs (by assumption))

/-- Sampling a trajectory whose points all carry the same data returns that
data. -/
theorem getPointAtTime_data_const (T : Trajectory) (t : ℚ) (c : V3)
    (hc : ∀ pt ∈ T.points, pt.data = c) :
    ∀ p, T.getPointAtTime t = some p → p.data = c := by
  intro p hp
  rw [Trajectory.getPointAtTime] at hp
  split_ifs at hp with h1 h2
  have hdom := h2
  push_neg at hdom
  have hans : T.bisectLeft t < T.points.length := T.bisectLeft_lt_length t h1 hdom.2
  have hsmem : T.gpatS t ∈ T.points := by
    rw [Trajectory.gpatS, List.getD_eq_getElem _ _ hans]
    exact List.getElem_mem hans
  have hemem : T.gpatE t ∈ T.points := by
    rw [Trajectory.gpatE]
    split_ifs with hz
    · rw [List.getLastD_eq_getLast?, List.getLast?_eq_getLast_of_ne_nil h1, Option.getD_some]
      exact List.getLast_mem h1
    · rw [List.getD_eq_getElem _ _ (Nat.lt_of_le_of_lt (Nat.sub_le _ _) hans)]
      exact List.getElem_mem _
  rw [Trajectory.gpatSeg] at hp
  split_ifs at hp
  · cases hp
    exact hc _ hsmem
  · cases hp
    rw [TrajectoryPoint.interp_data, hc _ hsmem, hc _ hemem, sub_self, smul_zero, zero_add]

/-- Slicing a trajectory whose points all carry the same data yields points
with that same data. -/
theorem slice_data_const (T : Trajectory) (a b : ℚ) (c : V3)
    (hc : ∀ pt ∈ T.points, pt.data = c) :
    ∀ pt ∈ (T.slice a b).points, pt.data = c := by
  intro pt hpt
  rw [Trajectory.slice] at hpt
  split_ifs at hpt with h1 h2 h3
  · exact hc pt hpt
  · cases hpt
  · rcases Option.mem_toList.mp hpt with hsome
    exact getPointAtTime_data_const T a c hc pt hsome
  · rcases List.mem_append.mp hpt with hmem | hmem
    · rcases List.mem_append.mp hmem with hmem' | hmem'
      · exact getPointAtTime_data_const T a c hc pt (Option.mem_toList.mp hmem')
      · exact hc pt (List.mem_filter.mp hmem').1
    · exact getPointAtTime_data_const T b c hc pt (Option.mem_toList.mp hmem)

/-- A slice whose window touches the trajectory and whose start sample
exists begins with that sample (hence is non-empty). -/
theorem slice_cons_of_sample (T : Trajectory) (a b : ℚ) (hne : T.points ≠ [])
    (hguard : ¬ (a > T.endTime ∨ b < T.startTime)) (p : TrajectoryPoint)
    (hga : T.getPointAtTime a = some p) :
    ∃ rest, (T.slice a b).points = p :: rest := by
  rw [Trajectory.slice, if_neg hne, if_neg hguard]
  split_ifs
  · exact ⟨[], by rw [hga]; rfl⟩
  · exact ⟨_, by rw [hga]; rfl⟩

/-- `getLastD` commutes with `map` when the default is mapped too. -/
theorem getLastD_map (l : List TrajectoryPoint) (d : TrajectoryPoint) :
    (l.map (fun p => p.time)).getLastD d.time = (l.getLastD d).time := by
  induction l generalizing d with
  | nil => rfl
  | cons a rest ih =>
    rw [List.map_cons, List.getLastD_cons, List.getLastD_cons]
    exact ih a

/-- `start_time` depends only on the time list. -/
theorem startTime_eq_map (T : Trajectory) :
    T.startTime = (T.points.map (fun p => p.time)).headD 0 := by
  cases hp : T.points with
  | nil => rw [Trajectory.startTime, hp]; rfl
  | cons a l => rw [Trajectory.startTime, hp]; rfl

/-- `end_time` depends only on the time list. -/
theorem endTime_eq_map (T : Trajectory) :
    T.endTime = (T.points.map (fun p => p.time)).getLastD 0 := by
  rw [Trajectory.endTime, ← getLastD_map T.points dummyPt]
  rfl

/-- The query loop on windows whose slices are non-empty and carry constant
data `p` (resp. `q`) never reports a collision. -/
theorem queryGo_stationary (inCol : V3 → V3 → Bool) (nrm : V3 → ℚ) (t1 t2 : Trajectory)
    (thr : ℚ) (p q : V3) (h0 : nrm 0 = 0) :
    ∀ ws : List (ℚ × ℚ),
      (∀ w ∈ ws, (t1.slice w.1 w.2).points ≠ [] ∧ (t2.slice w.1 w.2).points ≠ [] ∧
        (∀ pt ∈ (t1.slice w.1 w.2).points, pt.data = p) ∧
        (∀ pt ∈ (t2.slice w.1 w.2).points, pt.data = q)) →
      ∀ c1 c2, ∃ g1 g2, queryGo inCol nrm t1 t2 thr ws c1 c2 = some (false, g1, g2) := by
  intro ws
  induction ws with
  | nil => exact fun _ c1 c2 => ⟨c1, c2, rfl⟩
  | cons w ws ih =>
    intro hws c1 c2
    obtain ⟨hne1, hne2, hd1, hd2⟩ := hws w (List.mem_cons_self w ws)
    obtain ⟨p0, ps, hs1⟩ : ∃ p0 ps, (t1.slice w.1 w.2).points = p0 :: ps := by
      cases hsp : (t1.slice w.1 w.2).points with
      | nil => exact absurd hsp hne1
      | cons x xs => exact ⟨x, xs, rfl⟩
    obtain ⟨q0, qs, hs2⟩ : ∃ q0 qs, (t2.slice w.1 w.2).points = q0 :: qs := by
      cases hsp : (t2.slice w.1 w.2).points with
      | nil => exact absurd hsp hne2
      | cons x xs => exact ⟨x, xs, rfl⟩
    have hp0 : p0.data = p := hd1 p0 (by rw [hs1]; exact List.mem_cons_self _ _)
    have hq0 : q0.data = q := hd2 q0 (by rw [hs2]; exact List.mem_cons_self _ _)
    have hlastmem : ∀ (x : TrajectoryPoint) (xs : List TrajectoryPoint),
        (x :: xs).getLastD dummyPt ∈ x :: xs := by
      intro x xs
      rw [List.getLastD_eq_getLast?,
        List.getLast?_eq_getLast_of_ne_nil (List.cons_ne_nil x xs), Option.getD_some]
      exact List.getLast_mem _
    have hlast1 : ((p0 :: ps).getLastD dummyPt).data = p :=
      hd1 _ (by rw [hs1]; exact hlastmem p0 ps)
    have hlast2 : ((q0 :: qs).getLastD dummyPt).data = q :=
      hd2 _ (by rw [hs2]; exact hlastmem q0 qs)
    have hcc : continuousCollide inCol nrm p0.data (((p0 :: ps).getLastD dummyPt).data)
        q0.data (((q0 :: qs).getLastD dummyPt).data) thr = (false, p0.data, q0.data) := by
      rw [hp0, hq0, hlast1, hlast2]
      exact (continuousCollide_stationary inCol nrm p q thr h0).2
    obtain ⟨g1, g2, hg⟩ := ih (fun w' hw' => hws w' (List.mem_cons_of_mem w hw'))
      p0.data q0.data
    refine ⟨g1, g2, ?_⟩
    simp only [queryGo, hs1, hs2, hcc]
    exact hg

/-- C5. With zero-length motion on both sides (target translations equal to
the current ones), `continuous_collide` computes
`n = ceil(max(0,0)/threshold) = 0` samples, evaluates no `in_collision` test
(the result is `False` for *every* pairwise test `inCol`, including one that
always reports a collision), and restores the translations; consequently
`trajectory_collision_query` returns `False` on concurrent stationary
trajectories even when their (constant) positions overlap. -/
theorem C5_stationary_no_collision :
    (∀ (inCol : V3 → V3 → Bool) (nrm : V3 → ℚ) (s1 s2 : V3) (threshold : ℚ),
      nrm 0 = 0 →
      ccNumSamples nrm s1 s1 s2 s2 threshold = 0 ∧
      continuousCollide inCol nrm s1 s1 s2 s2 threshold = (false, s1, s2)) ∧
    (∀ (inCol : V3 → V3 → Bool) (nrm : V3 → ℚ) (t1 t2 : Trajectory) (threshold : ℚ)
      (init1 init2 p q : V3),
      nrm 0 = 0 → t1.points ≠ [] →
      t1.points.Pairwise (fun a b => a.time < b.time) →
      t1.points.map (fun pt => pt.time) = t2.points.map (fun pt => pt.time) →
      (∀ pt ∈ t1.points, pt.data = p) → (∀ pt ∈ t2.points, pt.data = q) →
      (trajectoryCollisionQuery inCol nrm t1 t2 threshold init1 init2).map
        (fun r => r.1) = some false) := by
  refine ⟨fun inCol nrm s1 s2 thr h0 => continuousCollide_stationary inCol nrm s1 s2 thr h0,
    ?_⟩
  intro inCol nrm t1 t2 thr init1 init2 p q h0 hne1 hsort1 hsame hd1 hd2
  have hne2 : t2.points ≠ [] := by
    intro hcontra
    rw [hcontra] at hsame
    simp only [List.map_nil, List.map_eq_nil_iff] at hsame
    exact hne1 hsame
  have hstart : t2.startTime = t1.startTime := by
    rw [startTime_eq_map, startTime_eq_map, hsame]
  have hstop : t2.endTime = t1.endTime := by
    rw [endTime_eq_map, endTime_eq_map, hsame]
  have hsort2 : t2.points.Pairwise (fun a b => a.time < b.time) := by
    have h1 : (t1.points.map (fun pt => pt.time)).Pairwise (· < ·) :=
      List.pairwise_map.mpr hsort1
    rw [hsame] at h1
    exact List.pairwise_map.mp h1
  -- every window endpoint is one of the trajectories' point times,
  -- hence lies in the common time span
  have hbound : ∀ x ∈ pySortedSet ((t1.points.map (fun pt => pt.time)) ++
      (t2.points.map (fun pt => pt.time))),
      t1.startTime ≤ x ∧ x ≤ t1.endTime := by
    intro x hx
    have hx1 : x ∈ ((t1.points.map (fun pt => pt.time)) ++
        (t2.points.map (fun pt => pt.time))).dedup :=
      (List.perm_insertionSort _ _).mem_iff.mp hx
    have hx2 := List.mem_dedup.mp hx1
    have hx3 : x ∈ t1.points.map (fun pt => pt.time) := by
      rcases List.mem_append.mp hx2 with hmem | hmem
      · exact hmem
      · rw [← hsame] at hmem; exact hmem
    obtain ⟨pt, hpt, rfl⟩ := List.mem_map.mp hx3
    constructor
    · rw [t1.startTime_eq_head hne1]
      exact head_time_le t1.points hne1 hsort1 pt hpt
    · rw [t1.endTime_eq_getLast hne1]
      exact time_le_getLast t1.points hne1 hsort1 pt hpt
  have hwin : ∀ w ∈ segWindows t1 t2,
      (t1.slice w.1 w.2).points ≠ [] ∧ (t2.slice w.1 w.2).points ≠ [] ∧
      (∀ pt ∈ (t1.slice w.1 w.2).points, pt.data = p) ∧
      (∀ pt ∈ (t2.slice w.1 w.2).points, pt.data = q) := by
    rintro ⟨a, b⟩ hw
    have hab := List.of_mem_zip hw
    have ha := hbound a hab.1
    have hb := hbound b (List.mem_of_mem_tail hab.2)
    have hguard1 : ¬ (a > t1.endTime ∨ b < t1.startTime) := by
      push_neg
      exact ⟨ha.2, hb.1⟩
    have hguard2 : ¬ (a > t2.endTime ∨ b < t2.startTime) := by
      push_neg
      rw [hstart, hstop]
      exact ⟨ha.2, hb.1⟩
    obtain ⟨p1, hp1, -⟩ := t1.getPointAtTime_mem_domain a hne1 hsort1 ha.1 ha.2
    obtain ⟨p2, hp2, -⟩ := t2.getPointAtTime_mem_domain a hne2 hsort2
      (by rw [hstart]; exact ha.1) (by rw [hstop]; exact ha.2)
    obtain ⟨r1, hr1⟩ := slice_cons_of_sample t1 a b hne1 hguard1 p1 hp1
    obtain ⟨r2, hr2⟩ := slice_cons_of_sample t2 a b hne2 hguard2 p2 hp2
    exact ⟨by rw [hr1]; exact List.cons_ne_nil _ _, by rw [hr2]; exact List.cons_ne_nil _ _,
      slice_data_const t1 a b p hd1, slice_data_const t2 a b q hd2⟩
  obtain ⟨g1, g2, hg⟩ := queryGo_stationary inCol nrm t1 t2 thr p q h0
    (segWindows t1 t2) hwin init1 init2
  rw [trajectoryCollisionQuery, hg]
  rfl

/-- A two-point trajectory standing still at `(1,1,1)` over `[0, 1]`. -/
def trajStatP : Trajectory := ⟨[⟨(1, 1, 1), 0⟩, ⟨(1, 1, 1), 1⟩]⟩

/-- Witness for C5: two agents parked at the same point `(1,1,1)` for the
whole interval, with a pairwise test that always reports collision — the
query still returns `False`. -/
theorem C5_stationary_no_collision_witness :
    (l1norm 0 = 0 ∧ trajStatP.points ≠ [] ∧
      trajStatP.points.Pairwise (fun a b => a.time < b.time) ∧
      trajStatP.points.map (fun pt => pt.time) = trajStatP.points.map (fun pt => pt.time) ∧
      (∀ pt ∈ trajStatP.points, pt.data = ((1 : ℚ), (1 : ℚ), (1 : ℚ)))) ∧
    (trajectoryCollisionQuery (fun _ _ => true) l1norm trajStatP trajStatP 1
      v3zero v3zero).map (fun r => r.1) = some false := by
  have h0 : l1norm 0 = 0 := by norm_num [l1norm]
  have hne : trajStatP.points ≠ [] := by simp [trajStatP]
  have hsort : trajStatP.points.Pairwise (fun a b => a.time < b.time) := by decide
  have hd : ∀ pt ∈ trajStatP.points, pt.data = ((1 : ℚ), (1 : ℚ), (1 : ℚ)) := by decide
  exact ⟨⟨h0, hne, hsort, rfl, hd⟩,
    C5_stationary_no_collision.2 (fun _ _ => true) l1norm trajStatP trajStatP 1
      v3zero v3zero (1, 1, 1) (1, 1, 1) h0 hne hsort rfl hd hd⟩

/-- After a collision-free run, the query loop leaves the translations at
the first points of the slices of the last window processed (or untouched
when there were no windows). -/
theorem queryGo_last (inCol : V3 → V3 → Bool) (nrm : V3 → ℚ) (t1 t2 : Trajectory)
    (thr : ℚ) :
    ∀ (ws : List (ℚ × ℚ)) (c1 c2 g1 g2 : V3),
      queryGo inCol nrm t1 t2 thr ws c1 c2 = some (false, g1, g2) →
      (ws = [] ∧ g1 = c1 ∧ g2 = c2) ∨
      (∃ w ws', ws = ws' ++ [w] ∧
        g1 = ((t1.slice w.1 w.2).points.headD dummyPt).data ∧
        g2 = ((t2.slice w.1 w.2).points.headD dummyPt).data) := by
  intro ws
  induction ws with
  | nil =>
    intro c1 c2 g1 g2 hq
    left
    simp only [queryGo, Option.some.injEq, Prod.mk.injEq, true_and] at hq
    exact ⟨rfl, hq.1.symm, hq.2.symm⟩
  | cons w ws ih =>
    intro c1 c2 g1 g2 hq
    rcases hs1 : (t1.slice w.1 w.2).points with _ | ⟨p, ps⟩
    · rw [queryGo, hs1] at hq
      cases hq
    · rcases hs2 : (t2.slice w.1 w.2).points with _ | ⟨q, qs⟩
      · rw [queryGo, hs1, hs2] at hq
        cases hq
      · simp only [queryGo, hs1, hs2] at hq
        by_cases hr : (continuousCollide inCol nrm p.data (((p :: ps).getLastD dummyPt).data)
            q.data (((q :: qs).getLastD dummyPt).data) thr).1
        · rw [if_pos hr] at hq
          simp only [Option.some.injEq, Prod.mk.injEq] at hq
          exact absurd hq.1 (by simp)
        · rw [if_neg hr] at hq
          rcases ih _ _ _ _ hq with ⟨hws, hg1, hg2⟩ | ⟨w', ws', hsplit, hg1, hg2⟩
          · right
            refine ⟨w, [], by rw [hws]; rfl, ?_, ?_⟩
            · rw [hg1, hs1]
              rfl
            · rw [hg2, hs2]
              rfl
          · right
            exact ⟨w', w :: ws', by rw [hsplit]; rfl, hg1, hg2⟩

/-- C4 (amended). `continuous_collide` restores the translations it read at
entry — but `trajectory_collision_query` overwrites the models' translations
with the first point of each concurrent slice before every
`continuous_collide` call, so after a collision-free query the models stand
at the first points of the *last* concurrent window, not at their pre-query
poses (which survive only when there is no window at all). -/
theorem C4_query_translations :
    (∀ (inCol : V3 → V3 → Bool) (nrm : V3 → ℚ) (s1 f1 s2 f2 : V3) (thr : ℚ),
      (continuousCollide inCol nrm s1 f1 s2 f2 thr).2 = (s1, s2)) ∧
    (∀ (inCol : V3 → V3 → Bool) (nrm : V3 → ℚ) (t1 t2 : Trajectory) (thr : ℚ)
      (init1 init2 g1 g2 : V3),
      trajectoryCollisionQuery inCol nrm t1 t2 thr init1 init2 = some (false, g1, g2) →
      (segWindows t1 t2 = [] ∧ g1 = init1 ∧ g2 = init2) ∨
      (∃ w ws', segWindows t1 t2 = ws' ++ [w] ∧
        g1 = ((t1.slice w.1 w.2).points.headD dummyPt).data ∧
        g2 = ((t2.slice w.1 w.2).points.headD dummyPt).data)) := by
  constructor
  · intro inCol nrm s1 f1 s2 f2 thr
    rfl
  · intro inCol nrm t1 t2 thr init1 init2 g1 g2 hq
    exact queryGo_last inCol nrm t1 t2 thr (segWindows t1 t2) init1 init2 g1 g2 hq

/-- A two-point trajectory standing still at `(5,5,5)` over `[0, 1]`. -/
def trajStat : Trajectory := ⟨[⟨(5, 5, 5), 0⟩, ⟨(5, 5, 5), 1⟩]⟩

/-- A pairwise collision test that never reports a collision. -/
def inColNever : V3 → V3 → Bool := fun _ _ => false

/-- Concrete evaluation of `trajectory_collision_query` on the moving
trajectory `(0,0,0) → (1,0,0)` against the parked trajectory at `(5,5,5)`,
with the models initially translated to `(100,0,0)` and `(200,0,0)`: the
query reports no collision and leaves the translations at `(0,0,0)` and
`(5,5,5)` — the first points of the (single) concurrent window. -/
theorem queryC4_eval :
    trajectoryCollisionQuery inColNever l1norm trajSlow trajStat 1
      (100, 0, 0) (200, 0, 0) = some (false, (0, 0, 0), (5, 5, 5)) := by
  have hwin : segWindows trajSlow trajStat = [(0, 1)] := by
    norm_num [segWindows, trajSlow, trajStat, pySortedSet, List.dedup, List.insertionSort,
      List.orderedInsert]
  rw [trajectoryCollisionQuery, hwin]
  have hs1 : (trajSlow.slice 0 1).points = [⟨(0, 0, 0), 0⟩, ⟨(1, 0, 0), 1⟩] := by
    norm_num [trajSlow, Trajectory.slice, Trajectory.endTime, Trajectory.startTime,
      Trajectory.getPointAtTime, Trajectory.gpatSeg, Trajectory.gpatS, Trajectory.gpatE,
      Trajectory.bisectLeft, List.countP_cons, dummyPt, v3zero,
      TrajectoryPoint.interp, List.filter, apply_ite Trajectory.points, Prod.ext_iff]
    simp
  have hs2 : (trajStat.slice 0 1).points = [⟨(5, 5, 5), 0⟩, ⟨(5, 5, 5), 1⟩] := by
    norm_num [trajStat, Trajectory.slice, Trajectory.endTime, Trajectory.startTime,
      Trajectory.getPointAtTime, Trajectory.gpatSeg, Trajectory.gpatS, Trajectory.gpatE,
      Trajectory.bisectLeft, List.countP_cons, dummyPt, v3zero,
      TrajectoryPoint.interp, List.filter, apply_ite Trajectory.points, Prod.ext_iff]
    simp
  have hcc : continuousCollide inColNever l1norm ((0 : ℚ), (0 : ℚ), (0 : ℚ)) (1, 0, 0)
      ((5 : ℚ), (5 : ℚ), (5 : ℚ)) (5, 5, 5) 1 =
      (false, ((0 : ℚ), (0 : ℚ), (0 : ℚ)), ((5 : ℚ), (5 : ℚ), (5 : ℚ))) := by
    norm_num [continuousCollide, ccNumSamples, l1norm, inColNever, linspace01, Prod.ext_iff]
  simp only [queryGo, hs1, hs2, List.getLastD_cons, List.getLastD_nil]
  rw [hcc]
  norm_num

/-- C4, counterexample. At the concrete input of `queryC4_eval` the models'
translations before the call are `(100,0,0)` and `(200,0,0)`, and after the
call they are `(0,0,0)` and `(5,5,5)`: `trajectory_collision_query` does not
restore the pre-query translations. -/
theorem C4_counterexample :
    trajectoryCollisionQuery inColNever l1norm trajSlow trajStat 1
      (100, 0, 0) (200, 0, 0) = some (false, (0, 0, 0), (5, 5, 5)) ∧
    (((0 : ℚ), (0 : ℚ), (0 : ℚ)) : V3) ≠ (100, 0, 0) ∧
    (((5 : ℚ), (5 : ℚ), (5 : ℚ)) : V3) ≠ (200, 0, 0) :=
  ⟨queryC4_eval, by norm_num [Prod.ext_iff], by norm_num [Prod.ext_iff]⟩

/-- Witness for C4 at the concrete input of `queryC4_eval`: the post-query
translations coincide with the first points of the last (sole) concurrent
window's slices. -/
theorem C4_query_translations_witness :
    trajectoryCollisionQuery inColNever l1norm trajSlow trajStat 1
      (100, 0, 0) (200, 0, 0) = some (false, (0, 0, 0), (5, 5, 5)) ∧
    ((segWindows trajSlow trajStat = [] ∧
        (((0 : ℚ), (0 : ℚ), (0 : ℚ)) : V3) = (100, 0, 0) ∧
        (((5 : ℚ), (5 : ℚ), (5 : ℚ)) : V3) = (200, 0, 0)) ∨
      (∃ w ws', segWindows trajSlow trajStat = ws' ++ [w] ∧
        (((0 : ℚ), (0 : ℚ), (0 : ℚ)) : V3) =
          ((trajSlow.slice w.1 w.2).points.headD dummyPt).data ∧
        (((5 : ℚ), (5 : ℚ), (5 : ℚ)) : V3) =
          ((trajStat.slice w.1 w.2).points.headD dummyPt).data)) :=
  ⟨queryC4_eval, C4_query_translations.2 inColNever l1norm trajSlow trajStat 1
    (100, 0, 0) (200, 0, 0) _ _ queryC4_eval⟩

/-! ## C1/C3: `MultiAgentToolpathPlanner.plan` -/

/-- Agent identifiers (opaque hashables in the source). -/
abbrev AgentId := ℕ

/-- Embedding of `AgentModel` restricted to the fields `plan` reads:
`capabilities` and `home_position`. -/
structure AgentModel where
  capabilities : List ℤ
  home_position : V3
deriving DecidableEq, Repr

/-- Node ids of the scheduler's dependency graph: the `"start"` pseudo-task
plus contour indices. -/
inductive PNode where
  | start
  | task (i : ℕ)
deriving DecidableEq, Repr

/-- Embedding of `DependencyGraph` (`scheduling/dependency_graph.py`): a
directed graph as an edge list plus the set of nodes flagged `complete`. -/
structure DependencyGraph where
  edges : List (PNode × PNode)
  completed : List PNode
deriving DecidableEq, Repr

namespace DependencyGraph

/-- `self._graph.successors(n)`. -/
def successors (g : DependencyGraph) (n : PNode) : List PNode :=
  (g.edges.filter (fun e => decide (e.1 = n))).map (fun e => e.2)

/-- `self._graph.predecessors(n)`. -/
def predecessors (g : DependencyGraph) (n : PNode) : List PNode :=
  (g.edges.filter (fun e => decide (e.2 = n))).map (fun e => e.1)

/-- `self._graph.out_degree(n)`. -/
def outDegree (g : DependencyGraph) (n : PNode) : ℕ :=
  (g.edges.filter (fun e => decide (e.1 = n))).length

/-- `set_complete(n)`: set the node's `complete` flag (idempotent). -/
def setComplete (g : DependencyGraph) (n : PNode) : DependencyGraph :=
  if n ∈ g.completed then g else { g with completed := n :: g.completed }

/-- `can_start(n)`: all predecessors are flagged complete. -/
def canStart (g : DependencyGraph) (n : PNode) : Bool :=
  (g.predecessors n).all (fun p => g.completed.contains p)

end DependencyGraph

/-- Embedding of `PlanningOptions` (`toolpath_scheduling/toolpath_scheduler.py`). -/
structure PlanningOptions where
  velocity : ℚ
  retract_height : ℚ
  collision_offset : ℚ
deriving DecidableEq, Repr

/-- The inputs of `MultiAgentToolpathPlanner.plan`: the toolpath's contour
list, the dependency graph, the options, and the `agent_models` mapping in
insertion order. -/
structure PlanInput where
  contours : List Contour
  dg0 : DependencyGraph
  options : PlanningOptions
  agents : List (AgentId × AgentModel)
deriving DecidableEq, Repr

/-- The planner's mutable state at the top of the `while frontier` loop. -/
structure PlanState where
  completedTasks : List PNode
  inProgress : List (PNode × ℚ)
  frontier : List PNode
  dg : DependencyGraph
  positions : List (AgentId × V3)
  times : List (AgentId × ℚ)
  schedules : List (AgentId × List MoveEvent)
deriving DecidableEq, Repr

/-- Errors of the `plan` contract. `uncoverableCapability` is the failure
the specification prescribes at entry; the source raises no such error
(nothing in the repository defines or raises it), so no code path below
produces it. `runtimeError` stands for the dynamic failures the source does
hit (see `agentsLoop` and `planStep`). -/
inductive PlanError where
  | uncoverableCapability
  | runtimeError
deriving DecidableEq, Repr

/-- `toolpath.contours[n].tool`. Indexing with the `"start"` node or out of
range would raise in Python; the junk tool id `-2` is returned instead, and
the runs reasoned about below never read it. -/
def toolOf (contours : List Contour) : PNode → ℤ
  | .start => -2
  | .task i => (contours.getD i ⟨[], -2⟩).tool

/-- Line 158, `nodes = sorted(available, key=lambda a: dg._graph.out_degree(a))`:
Python's stable sort in *ascending* key order, embedded as a stable
insertion sort by out-degree. -/
def sortAvailable (g : DependencyGraph) (l : List PNode) : List PNode :=
  List.insertionSort (fun x y => g.outDegree x ≤ g.outDegree y) l

/-- `agent_times[agent] = v`. -/
def setTime (times : List (AgentId × ℚ)) (a : AgentId) (v : ℚ) : List (AgentId × ℚ) :=
  times.map (fun kv => if kv.1 = a then (kv.1, v) else kv)

/-- The `for agent, _ in min_time_agents` loop of `plan` (lines 143–196).
For each due agent the feasible tasks are the frontier tasks that can start
and whose tool is in the agent's capabilities; with no feasible task the
agent's clock moves to the second-smallest time (or stays). With a feasible
task the source sorts the candidates (line 158) and then, inside the
candidate loop, dereferences `self.event_causes_collision` — an attribute
`MultiAgentToolpathPlanner` never defines — so any reachable assignment
attempt raises `AttributeError`, embedded as `.error ()`. -/
def agentsLoop (inp : PlanInput) (frontier : List PNode) (dg : DependencyGraph)
    (time : ℚ) (rest : List ℚ) :
    List AgentId → List (AgentId × ℚ) → Except Unit (List (AgentId × ℚ))
  | [], times => .ok times
  | a :: more, times =>
    let model := (List.lookup a inp.agents).getD ⟨[], v3zero⟩
    let avail := frontier.filter (fun n =>
      dg.canStart n && model.capabilities.contains (toolOf inp.contours n))
    if avail.isEmpty then
      let newT := match rest with
        | [] => time
        | t1 :: _ => t1
      agentsLoop inp frontier dg time rest more (setTime times a newT)
    else
      let _nodes := sortAvailable dg avail
      .error ()

/-- One iteration of the `while frontier` loop of `plan` (lines 130–196):
take the minimum clock value, flag newly finished `in_progress` tasks
complete, and run the due agents. `.error` marks the Python dynamic errors
(`unique_times[0]` on an empty agent table; the candidate loop's undefined
attribute). -/
def planStep (inp : PlanInput) (st : PlanState) : Except Unit PlanState :=
  match pySortedSet (st.times.map (fun kv => kv.2)) with
  | [] => .error ()
  | time :: rest =>
    let completeNow := (st.inProgress.filter (fun kv => decide (time ≥ kv.2))).map
      (fun kv => kv.1)
    let dg' := completeNow.foldl (fun g n => g.setComplete n) st.dg
    let inProg' := st.inProgress.filter (fun kv => decide (¬ time ≥ kv.2))
    let completed' := completeNow.foldl
      (fun acc n => if n ∈ acc then acc else acc ++ [n]) st.completedTasks
    let due := (st.times.filter (fun kv => decide (kv.2 = time))).map (fun kv => kv.1)
    match agentsLoop inp st.frontier dg' time rest due st.times with
    | .error e => .error e
    | .ok times' =>
      .ok { st with
        completedTasks := completed'
        inProgress := inProg'
        dg := dg'
        times := times' }

/-- The entry of `plan` (lines 112–128). Lines 112–119 build the initial
bookkeeping with no validation of any kind — in particular no
capability-coverage check exists (the spec's `UncoverableCapability` has no
counterpart anywhere in the source). But line 122,
`for agent, model in self._agent_models.keys():`, iterates the dictionary
*keys* and unpacks each key as an `(agent, model)` pair: an agent id is not
a pair of agent and model, so Python raises `TypeError` (or `ValueError`)
on the first key, before the `while` loop, whenever at least one agent is
registered. Entry therefore fails with a runtime error for every input
with an agent, and completes only when the agent table is empty: the loop
body never runs and all three agent maps come out empty
(`dict().fromkeys([], 0.0)` and the dict comprehension over no agents). -/
def planEntry (inp : PlanInput) : Except PlanError PlanState :=
  match inp.agents with
  | _ :: _ => .error .runtimeError
  | [] =>
    .ok { completedTasks := []
          inProgress := [(.start, 0)]
          frontier := inp.dg0.successors .start
          dg := inp.dg0.setComplete .start
          positions := []
          times := []
          schedules := [] }

/-- Possible outcomes of running `plan` with bounded fuel. -/
inductive PlanOutcome where
  | finished (st : PlanState)
  | fuelOut
  | error (e : PlanError)
deriving DecidableEq, Repr

/-- The fuel-bounded `while frontier` loop. -/
def planLoop (inp : PlanInput) : PlanState → ℕ → PlanOutcome
  | _, 0 => .fuelOut
  | st, n + 1 =>
    if st.frontier.isEmpty then .finished st
    else
      match planStep inp st with
      | .error _ => .error .runtimeError
      | .ok st' => planLoop inp st' n

/-- `MultiAgentToolpathPlanner.plan`, fuel-bounded. -/
def plan (inp : PlanInput) (fuel : ℕ) : PlanOutcome :=
  match planEntry inp with
  | .error e => .error e
  | .ok st => planLoop inp st fuel

/-- Modelled from the spec: "every `contour.tool` is covered by ≥1 agent's
capabilities". This is the condition `plan` is claimed to check at entry;
the source contains no corresponding code. -/
abbrev specToolsCovered (inp : PlanInput) : Prop :=
  ∀ c ∈ inp.contours, ∃ am ∈ inp.agents, c.tool ∈ am.2.capabilities

/-- A concrete uncoverable input: one contour with tool `5`, one agent whose
capability set is `{0}`. -/
def inputC1 : PlanInput :=
  { contours := [⟨[(0, 0, 0), (1, 0, 0)], 5⟩]
    dg0 := ⟨[(.start, .task 0)], []⟩
    options := ⟨1, 1, 1⟩
    agents := [(0, ⟨[0], (0, 0, 0)⟩)] }

/-- The same scene with a *covered* tool (`0 ∈ {0}`): entry fails exactly
the same way, showing the failure has nothing to do with coverage. -/
def inputC1cov : PlanInput :=
  { contours := [⟨[(0, 0, 0), (1, 0, 0)], 0⟩]
    dg0 := ⟨[(.start, .task 0)], []⟩
    options := ⟨1, 1, 1⟩
    agents := [(0, ⟨[0], (0, 0, 0)⟩)] }

/-- The same scene with no agents at all: the home-position loop body never
runs, so entry completes. -/
def inputC1none : PlanInput :=
  { contours := [⟨[(0, 0, 0), (1, 0, 0)], 5⟩]
    dg0 := ⟨[(.start, .task 0)], []⟩
    options := ⟨1, 1, 1⟩
    agents := [] }

/-- Entry fails with the key-unpacking runtime error (line 122) for every
input with at least one registered agent. -/
theorem planEntry_crash (inp : PlanInput) (h : inp.agents ≠ []) :
    planEntry inp = .error .runtimeError := by
  rw [planEntry]
  cases hA : inp.agents with
  | nil => exact absurd hA h
  | cons a as => rfl

/-- Entry completes when the agent table is empty: the line-122 loop body
never runs. -/
theorem planEntry_ok_empty (inp : PlanInput) (h : inp.agents = []) :
    ∃ st, planEntry inp = .ok st := by
  refine ⟨{ completedTasks := []
            inProgress := [(.start, 0)]
            frontier := inp.dg0.successors .start
            dg := inp.dg0.setComplete .start
            positions := []
            times := []
            schedules := [] }, ?_⟩
  rw [planEntry, h]

/-- The `while` loop never produces the spec's `UncoverableCapability`: its
only failure outcome is `runtimeError` (a Python dynamic error raised
inside the loop body). -/
theorem planLoop_ne_uncoverable (inp : PlanInput) :
    ∀ (n : ℕ) (st : PlanState),
      planLoop inp st n ≠ .error .uncoverableCapability := by
  intro n
  induction n with
  | zero =>
    intro st h
    exact PlanOutcome.noConfusion h
  | succ n ih =>
    intro st
    simp only [planLoop]
    by_cases hf : st.frontier.isEmpty = true
    · rw [if_pos hf]
      exact fun h => PlanOutcome.noConfusion h
    · rw [if_neg hf]
      cases hstep : planStep inp st with
      | error e =>
        intro h
        simp at h
      | ok st' => exact ih st'

/-- No code path of `plan` constructs `UncoverableCapability`, on any input
with any fuel bound. -/
theorem plan_ne_uncoverable (inp : PlanInput) (fuel : ℕ) :
    plan inp fuel ≠ .error .uncoverableCapability := by
  rw [plan]
  by_cases hA : inp.agents = []
  · obtain ⟨st, hst⟩ := planEntry_ok_empty inp hA
    rw [hst]
    exact planLoop_ne_uncoverable inp fuel st
  · rw [planEntry_crash inp hA]
    intro h
    simp at h

/-- C1, counterexample. `inputC1` has a contour whose tool is covered by no
agent, yet `plan` does not fail with `UncoverableCapability`: it fails at
entry with the line-122 key-unpacking `TypeError` (`runtimeError` in this
embedding), an error it raises for any input with an agent. -/
theorem C1_counterexample :
    ¬ specToolsCovered inputC1 ∧
    planEntry inputC1 = .error .runtimeError ∧
    planEntry inputC1 ≠ .error .uncoverableCapability ∧
    plan inputC1 100 ≠ .error .uncoverableCapability := by
  refine ⟨by decide, rfl, ?_, by decide⟩
  intro h
  rw [show planEntry inputC1 = .error .runtimeError from rfl] at h
  simp at h

/-- C1 (amended). `plan` performs no capability-coverage check and never
raises `UncoverableCapability` — on any input, with any fuel bound. What
the entry actually does: the line-122 key unpacking fails with a
`TypeError` (`runtimeError` here) for every input with at least one agent,
whether the tools are covered (`inputC1cov`) or not (`inputC1`); only an
input with an empty agent table (`inputC1none`) gets past entry. -/
theorem C1_no_capability_check :
    (∀ inp : PlanInput, inp.agents ≠ [] → planEntry inp = .error .runtimeError) ∧
    (∀ inp : PlanInput, inp.agents = [] → ∃ st, planEntry inp = .ok st) ∧
    (∀ (inp : PlanInput) (fuel : ℕ), plan inp fuel ≠ .error .uncoverableCapability) ∧
    ¬ specToolsCovered inputC1 ∧
    (∀ fuel, plan inputC1 fuel = .error .runtimeError) ∧
    specToolsCovered inputC1cov ∧
    (∀ fuel, plan inputC1cov fuel = .error .runtimeError) :=
  ⟨planEntry_crash, planEntry_ok_empty, plan_ne_uncoverable,
    by decide, fun _ => rfl, by decide, fun _ => rfl⟩

/-- Witness for C1: the general entry facts instantiated at concrete
inputs — `inputC1` has an agent and fails at entry with the runtime error,
`inputC1none` has none and gets past entry, and `plan` on `inputC1` does
not raise the spec's error. -/
theorem C1_no_capability_check_witness :
    inputC1.agents ≠ [] ∧ planEntry inputC1 = .error .runtimeError ∧
    inputC1none.agents = [] ∧ (∃ st, planEntry inputC1none = .ok st) ∧
    plan inputC1 100 ≠ .error .uncoverableCapability :=
  ⟨fun h => List.noConfusion h,
    C1_no_capability_check.1 inputC1 (fun h => List.noConfusion h),
    rfl,
    C1_no_capability_check.2.1 inputC1none rfl,
    C1_no_capability_check.2.2.1 inputC1 100⟩

/-- C3 (amended). The candidate list `nodes = sorted(available, key=out_degree)`
is `available` re-ordered *ascending* by out-degree in the dependency graph
(Python's sort is stable, so ties keep their frontier-iteration order): it
is a permutation of `available`, it is sorted by out-degree ascending, and
the first candidate attempted is one of *minimum* out-degree among the
feasible tasks. -/
theorem C3_candidate_order (g : DependencyGraph) (avail : List PNode) :
    (sortAvailable g avail).Perm avail ∧
    (sortAvailable g avail).Pairwise (fun x y => g.outDegree x ≤ g.outDegree y) ∧
    (avail ≠ [] → ∀ n ∈ avail,
      g.outDegree ((sortAvailable g avail).headD .start) ≤ g.outDegree n) := by
  haveI htot : IsTotal PNode (fun x y => g.outDegree x ≤ g.outDegree y) :=
    ⟨fun a b => Nat.le_total _ _⟩
  haveI htr : IsTrans PNode (fun x y => g.outDegree x ≤ g.outDegree y) :=
    ⟨fun a b c hab hbc => Nat.le_trans hab hbc⟩
  have hperm : (sortAvailable g avail).Perm avail :=
    List.perm_insertionSort (fun x y => g.outDegree x ≤ g.outDegree y) avail
  have hsorted : (sortAvailable g avail).Pairwise (fun x y => g.outDegree x ≤ g.outDegree y) :=
    List.sorted_insertionSort (fun x y => g.outDegree x ≤ g.outDegree y) avail
  refine ⟨hperm, hsorted, ?_⟩
  intro hne n hn
  have hn' : n ∈ sortAvailable g avail := hperm.mem_iff.mpr hn
  have hne' : sortAvailable g avail ≠ [] := by
    intro hcontra
    rw [hcontra] at hperm
    exact hne hperm.symm.eq_nil
  cases hs : sortAvailable g avail with
  | nil => exact absurd hs hne'
  | cons h0 rest =>
    rw [List.headD_cons]
    rw [hs] at hn'
    rcases hn' with _ | hmem
    · exact le_refl _
    · rw [hs] at hsorted
      exact List.rel_of_pairwise_cons hsorted (by assumption)

/-- A dependency graph in which task 1 has out-degree 2 and task 0 has
out-degree 0. -/
def dgC3 : DependencyGraph := ⟨[(.task 1, .task 2), (.task 1, .task 3)], []⟩

/-- C3, counterexample. With feasible tasks `{0, 1}` where task 1 unlocks
two successors and task 0 none, the code's candidate list is `[0, 1]` —
ascending by out-degree — so the first candidate attempted has the
*minimum* out-degree 0, not the maximum 2 as claimed (a descending order
would begin with task 1). -/
theorem C3_counterexample :
    sortAvailable dgC3 [.task 0, .task 1] = [.task 0, .task 1] ∧
    dgC3.outDegree ((sortAvailable dgC3 [.task 0, .task 1]).headD .start) = 0 ∧
    dgC3.outDegree (.task 1) = 2 ∧
    ¬ (∀ n ∈ [PNode.task 0, .task 1],
        dgC3.outDegree n ≤
          dgC3.outDegree ((sortAvailable dgC3 [.task 0, .task 1]).headD .start)) := by
  decide

/-- Witness for C3 at the graph `dgC3` and candidates `[task 0, task 1]`:
the head of the sorted candidate list minimizes the out-degree. -/
theorem C3_candidate_order_witness :
    ([PNode.task 0, .task 1] ≠ []) ∧
    ∀ n ∈ [PNode.task 0, .task 1],
      dgC3.outDegree ((sortAvailable dgC3 [.task 0, .task 1]).headD .start) ≤
        dgC3.outDegree n :=
  ⟨by decide, (C3_candidate_order dgC3 [.task 0, .task 1]).2.2 (by decide)⟩
